import Mathlib

/-!
The preprocessing and inference pipeline of favoriot-ml.

A shallow embedding of `src/favoriot-ml.js` (the Node-RED node `favoriot-ml`) and the
properties of its specification.

Conventions of the embedding.

* The closure variables `session` and `preprocessorConfig` are passed explicitly.
* Values are JavaScript values (`JVal`).  An object is the list of its own enumerable
  properties in enumeration order, and its prototype is `Object.prototype`; the names
  every object inherits from there are `objectPrototypeKeys`.  An object whose prototype
  an assignment to `__proto__` has replaced keeps the new prototype beside its
  properties, and is read through it.  A configuration document is a value of `isJson`.
  A function occurs only as the value read through an inherited name, and its own
  members are not represented.
* An object is converted to a string by `Object.prototype.toString`: a member
  `toString` or `valueOf` that an object has in its place is not followed.
* The payload of a message is a record, the list of its properties (`JObj`).
* Numbers (`JNum`) are exact rationals, `NaN` and the two infinities: rounding to
  binary floating point, signed zero and overflow are not represented.
* Strings are sequences of Unicode scalar values.
* What the JavaScript engine or its library fixes, and the repository does not, is a
  field of `Host`: case mapping, number formatting, the wording of run-time errors.
* A thrown exception is a value of `Thrown`; functions that can throw return `Except`.
-/

set_option autoImplicit false

namespace FavoriotML

/-! ## Values -/

/-- A number: a rational, `NaN`, or an infinity. -/
inductive JNum where
  | fin (q : ℚ)
  | nan
  | inf (negative : Bool)
  deriving Repr, DecidableEq

/-- A JavaScript value.  `arr` holds the elements of an array and then its own named
(non-index) properties, which are empty for every array read from JSON.  `inherited n`
is the value read through the name `n` that an object inherits from `Object.prototype`:
a built-in function, or for `__proto__` the prototype object itself.  `obj` is an
object whose prototype is `Object.prototype`, and `derived props proto` is an object
whose prototype has been replaced by `proto`, which is `null`, an object or an array:
what the assignment `o["__proto__"] = proto` makes of `o`.  `hole` stands among the
elements of an array at an index the array has no property for; it is no value that an
expression can have. -/
inductive JVal where
  | undefined
  | null
  | bool (b : Bool)
  | num (x : JNum)
  | str (s : String)
  | arr (elems : List JVal) (extra : List (String × JVal))
  | obj (props : List (String × JVal))
  | inherited (name : String)
  | derived (props : List (String × JVal)) (proto : JVal)
  | hole
  deriving Repr

/-- The own enumerable properties of an object, in enumeration order. -/
abbrev JObj := List (String × JVal)

/-- Whether a value is one that `JSON.parse` returns: `null`, a boolean, a finite number,
a string, an array without named properties, or an object, of such values. -/
def isJson : JVal → Bool
  | .null => true
  | .bool _ => true
  | .num (.fin _) => true
  | .str _ => true
  | .arr xs ps => ps.isEmpty && elems xs
  | .obj ps => entries ps
  | _ => false
where
  /-- The same for the elements of an array. -/
  elems : List JVal → Bool
    | [] => true
    | x :: xs => isJson x && elems xs
  /-- The same for the entries of an object. -/
  entries : JObj → Bool
    | [] => true
    | (_, v) :: ps => isJson v && entries ps

/-- An exception: `error` is `throw new Error(message)` in the source, `typeError` is
raised by the engine at the named site (a `TypeError`, or the `RangeError` of an array
length), `rejected` is a failure of the inference engine. -/
inductive Thrown where
  | error (message : String)
  | typeError (site : String)
  | rejected (message : String)
  deriving Repr, DecidableEq

/-- What the JavaScript engine and its standard library decide. -/
structure Host where
  /-- The method `String.prototype.toLowerCase`. -/
  toLowerCase : String → String
  /-- The conversion `Number::toString` of a finite number. -/
  numberToString : ℚ → String
  /-- The source text the engine prints for the built-in function of that name. -/
  functionToString : String → String
  /-- The names an array inherits from `Array.prototype`. -/
  arrayPrototypeKeys : List String
  /-- The message of the `TypeError` raised at a site. -/
  typeErrorMessage : String → String
  /-- The function `path.basename`. -/
  basename : String → String

/-! ## Strings -/

/-- The code points `String.prototype.trim` removes: `WhiteSpace` and `LineTerminator`
of ECMA-262. -/
def isJsWhitespace (c : Char) : Bool :=
  let n := c.toNat
  n == 0x09 || n == 0x0A || n == 0x0B || n == 0x0C || n == 0x0D || n == 0x20 ||
  n == 0xA0 || n == 0x1680 || (0x2000 ≤ n && n ≤ 0x200A) || n == 0x2028 ||
  n == 0x2029 || n == 0x202F || n == 0x205F || n == 0x3000 || n == 0xFEFF

/-- Drop the leading whitespace of a character list. -/
def trimStartChars (cs : List Char) : List Char :=
  cs.dropWhile isJsWhitespace

/-- Drop the leading and the trailing whitespace of a character list. -/
def trimChars (cs : List Char) : List Char :=
  (trimStartChars (trimStartChars cs).reverse).reverse

/-- The method `String.prototype.trim`. -/
def jsTrim (s : String) : String :=
  String.mk (trimChars s.data)

/-- The length of a string in UTF-16 code units, its `length` property. -/
def utf16Length (s : String) : Nat :=
  (s.data.map fun c => if c.toNat < 0x10000 then 1 else 2).sum

/-- The decimal numeral of a natural number, the property key of an array index. -/
def indexKey (n : Nat) : String :=
  String.mk (Nat.toDigits 10 n)

/-- The UTF-16 code units of a string as one-unit strings.  A code point outside the
basic plane is two surrogate units, which no string here can hold: each is written
U+FFFD. -/
def utf16Units (s : String) : List String :=
  s.data.flatMap fun c =>
    if c.toNat < 0x10000 then [String.singleton c] else ["�", "�"]

/-! ## Property access -/

/-- The names every object inherits from `Object.prototype`. -/
def objectPrototypeKeys : List String :=
  ["constructor", "__defineGetter__", "__defineSetter__", "hasOwnProperty",
   "__lookupGetter__", "__lookupSetter__", "isPrototypeOf", "propertyIsEnumerable",
   "toString", "valueOf", "__proto__", "toLocaleString"]

/-- The first entry of a property list under a key. -/
def lookup (k : String) : JObj → Option JVal
  | [] => none
  | (k', v) :: ps => if k' = k then some v else lookup k ps

/-- Whether a property list has an entry under a key. -/
def hasOwn (k : String) (ps : JObj) : Bool :=
  (lookup k ps).isSome

/-- Pair each element of a list with the key of its index, from index `i` on.  A hole
takes an index and gives no property. -/
def indexed (i : Nat) : List JVal → JObj
  | [] => []
  | .hole :: xs => indexed (i + 1) xs
  | x :: xs => (indexKey i, x) :: indexed (i + 1) xs

/-- The own enumerable string-keyed properties of a value, in the order of
`Object.entries`: those of an object; the elements of an array under their indices and
then its named properties; the code units of a string; none for any other value. -/
def ownEntries : JVal → JObj
  | .obj ps => ps
  | .derived ps _ => ps
  | .arr xs ps => indexed 0 xs ++ ps
  | .str s => indexed 0 ((utf16Units s).map JVal.str)
  | _ => []

/-- The own properties of an array or a string that are not enumerable. -/
def hiddenOwn : JVal → JObj
  | .arr xs _ => [("length", .num (.fin xs.length))]
  | .str s => [("length", .num (.fin (utf16Length s)))]
  | _ => []

/-- The value under a name inherited from `Object.prototype`, `undefined` for any other
name. -/
def inheritedValue (k : String) : JVal :=
  if k ∈ objectPrototypeKeys then .inherited k else .undefined

/-- The value under the name `k` that an object inherits through the prototype it was
given, `recv` being that prototype and the last argument the object of the chain that is
searched next.  An own property of an object of the chain is found first.  The name
`__proto__` that no object of the chain has for its own is the accessor of
`Object.prototype`, which returns the prototype of the object that is read, `recv`.  A
chain that ends in `null` has no other names. -/
def inheritedThrough (h : Host) (k : String) (recv : JVal) : JVal → JVal
  | .null => .undefined
  | .derived ps proto =>
    match lookup k ps with
    | some x => x
    | none => inheritedThrough h k recv proto
  | .arr xs ps =>
    match lookup k (hiddenOwn (.arr xs ps) ++ ownEntries (.arr xs ps)) with
    | some x => x
    | none =>
      if k = "__proto__" then recv
      else if k ∈ h.arrayPrototypeKeys then .inherited k else inheritedValue k
  | .obj ps =>
    match lookup k ps with
    | some x => x
    | none => if k = "__proto__" then recv else inheritedValue k
  | _ => if k = "__proto__" then recv else inheritedValue k

/-- The expression `v[k]` for a string key, `v` neither `null` nor `undefined`: an own
property, else an inherited one, else `undefined`.  Of the names a value inherits,
those of `Object.prototype` and, for an array, of `Array.prototype` are covered, and
for an object whose prototype was replaced those it has through that prototype; the
program reads a string, a number, a boolean or a function under no other inherited
name. -/
def getProp (h : Host) (v : JVal) (k : String) : JVal :=
  match lookup k (hiddenOwn v ++ ownEntries v) with
  | some x => x
  | none =>
    match v with
    | .arr _ _ => if k ∈ h.arrayPrototypeKeys then .inherited k else inheritedValue k
    | .derived _ proto => inheritedThrough h k proto proto
    | _ => inheritedValue k

/-- The expression `v[i]` for a natural number `i`, `v` neither `null` nor `undefined`:
the element of an array, and for any other value the property under the numeral of
`i`. -/
def getIndex (h : Host) (v : JVal) (i : Nat) : JVal :=
  match v with
  | .arr xs _ =>
    match xs.getD i .undefined with
    | .hole => .undefined
    | x => x
  | _ => getProp h v (indexKey i)

/-- The expression `v.k`, which throws a `TypeError` on `null` and `undefined`. -/
def getMember (h : Host) (v : JVal) (k : String) : Except Thrown JVal :=
  match v with
  | .undefined => .error (.typeError ("read " ++ k ++ " of undefined"))
  | .null => .error (.typeError ("read " ++ k ++ " of null"))
  | _ => .ok (getProp h v k)

/-- The expression `v?.k`. -/
def optMember (h : Host) (v : JVal) (k : String) : JVal :=
  match v with
  | .undefined => .undefined
  | .null => .undefined
  | _ => getProp h v k

/-- Whether an object has the name `k` through the prototype it was given, the argument
being the object of the chain that is searched next. -/
def inChain (h : Host) (k : String) : JVal → Bool
  | .null => false
  | .derived ps proto => hasOwn k ps || inChain h k proto
  | .arr xs ps =>
    hasOwn k (indexed 0 xs ++ ps) || k = "length" ||
      decide (k ∈ h.arrayPrototypeKeys) || decide (k ∈ objectPrototypeKeys)
  | .obj ps => hasOwn k ps || decide (k ∈ objectPrototypeKeys)
  | _ => decide (k ∈ objectPrototypeKeys)

/-- The expression `k in v`: a `TypeError` when `v` is not an object, else whether `k`
names an own or an inherited property (for a function, an inherited one). -/
def hasProperty (h : Host) (k : String) (v : JVal) : Except Thrown Bool :=
  match v with
  | .obj ps => .ok (hasOwn k ps || decide (k ∈ objectPrototypeKeys))
  | .derived ps proto => .ok (hasOwn k ps || inChain h k proto)
  | .arr xs ps =>
      .ok (hasOwn k (indexed 0 xs ++ ps) || k = "length" ||
        decide (k ∈ h.arrayPrototypeKeys) || decide (k ∈ objectPrototypeKeys))
  | .inherited _ => .ok (decide (k ∈ objectPrototypeKeys))
  | _ => .error (.typeError ("in " ++ k))

/-- Whether a value is truthy. -/
def truthy : JVal → Bool
  | .undefined => false
  | .null => false
  | .bool b => b
  | .num (.fin q) => q ≠ 0
  | .num .nan => false
  | .str s => s ≠ ""
  | _ => true

/-- The array index a property key denotes, if any: a decimal numeral without leading
zero below `2 ^ 32 - 1`. -/
def arrayIndex (k : String) : Option Nat :=
  match k.data with
  | [] => none
  | c :: cs =>
    if (c :: cs).all Char.isDigit && (c ≠ '0' || cs.isEmpty) then
      let n := (c :: cs).foldl (fun a d => 10 * a + (d.toNat - 48)) 0
      if n < 2 ^ 32 - 1 then some n else none
    else none

/-- Replace the value of the first entry under a key. -/
def replaceOwn (k : String) (x : JVal) : JObj → JObj
  | [] => []
  | (k', v) :: ps => if k' = k then (k', x) :: ps else (k', v) :: replaceOwn k x ps

/-- Add an entry whose key is the array index `n`: index keys enumerate first, in
ascending order. -/
def insertIndexKey (n : Nat) (k : String) (x : JVal) : JObj → JObj
  | [] => [(k, x)]
  | (k', v) :: ps =>
    match arrayIndex k' with
    | some m => if n < m then (k, x) :: (k', v) :: ps else (k', v) :: insertIndexKey n k x ps
    | none => (k, x) :: (k', v) :: ps

/-- The own properties of an object after the value `x` has been stored under the own
name `k`.  An own property keeps its place and takes the new value.  A new key is added
after the others, an array index among the index keys. -/
def defineOwn (ps : JObj) (k : String) (x : JVal) : JObj :=
  if hasOwn k ps then replaceOwn k x ps
  else
    match arrayIndex k with
    | some n => insertIndexKey n k x ps
    | none => ps ++ [(k, x)]

/-- Whether an assignment to the name `__proto__`, which the object assigned to does
not have for its own, reaches the setter of `Object.prototype` through the prototype
`proto` of that object: not when the chain ends in `null`, and not when an object of the
chain has the name for an own property. -/
def reachesProtoSetter : JVal → Bool
  | .null => false
  | .derived ps proto => !hasOwn "__proto__" ps && reachesProtoSetter proto
  | .arr _ ps => !hasOwn "__proto__" ps
  | .obj ps => !hasOwn "__proto__" ps
  | _ => true

/-- Whether the setter of `__proto__` takes a value for the new prototype: an object
(an array and a function are objects) or `null`.  For any other value it does
nothing. -/
def installable : JVal → Bool
  | .null => true
  | .arr _ _ => true
  | .obj _ => true
  | .derived _ _ => true
  | .inherited _ => true
  | _ => false

/-- The assignment `o[k] = x` on an object `o` that is no array, giving the new state
of `o`.  An own property `k` takes the new value.  Else the name `__proto__` reaches the
setter of `Object.prototype`, unless the prototype chain of `o` does not lead there:
the setter replaces the prototype of `o` by `x` when `x` is an object or `null`, does
nothing for any other `x`, and creates no property.  Every other name becomes an own
property of `o`, whatever `o` inherits under it: the properties of the prototype are
data properties that can be written. -/
def assign (o : JVal) (k : String) (x : JVal) : JVal :=
  match o with
  | .obj ps =>
    if k = "__proto__" && !hasOwn k ps then
      if installable x then .derived ps x else .obj ps
    else .obj (defineOwn ps k x)
  | .derived ps proto =>
    if k = "__proto__" && !hasOwn k ps && reachesProtoSetter proto then
      if installable x then .derived ps x else .derived ps proto
    else .derived (defineOwn ps k x) proto
  | w => w

/-- The own properties of a record after the assignment `encoded[k] = x`.  The encoder
assigns under a name that the record has for its own, with a string for its value, so
that the assignment updates that property and the record keeps its prototype. -/
def assignRecord (ps : JObj) (k : String) (x : JVal) : JObj :=
  ownEntries (assign (.obj ps) k x)

/-- The statement `v.k = x`, giving the new state of `v`: a `TypeError` on `null` and
`undefined`; the assignment on an object; a new or updated named property on an array,
`k` being no index and neither `length` nor `__proto__`, as the three names are that
the program assigns; no effect on any other value (the module is not in strict
mode). -/
def assignMember (v : JVal) (k : String) (x : JVal) : Except Thrown JVal :=
  match v with
  | .undefined => .error (.typeError ("set " ++ k ++ " of undefined"))
  | .null => .error (.typeError ("set " ++ k ++ " of null"))
  | .obj ps => .ok (assign (.obj ps) k x)
  | .derived ps proto => .ok (assign (.derived ps proto) k x)
  | .arr xs ps => .ok (.arr xs (defineOwn ps k x))
  | w => .ok w

/-! ## Numbers -/

/-- The negation of a number. -/
def JNum.neg : JNum → JNum
  | .fin q => .fin (-q)
  | .nan => .nan
  | .inf s => .inf (!s)

/-- The sum of two numbers. -/
def JNum.add : JNum → JNum → JNum
  | .fin a, .fin b => .fin (a + b)
  | .nan, _ => .nan
  | _, .nan => .nan
  | .inf s, .inf t => if s = t then .inf s else .nan
  | .inf s, .fin _ => .inf s
  | .fin _, .inf t => .inf t

/-- The difference of two numbers. -/
def JNum.sub (a b : JNum) : JNum :=
  a.add b.neg

/-- The quotient of two numbers; a zero divisor counts as positive zero. -/
def JNum.div : JNum → JNum → JNum
  | .fin a, .fin b =>
    if b ≠ 0 then .fin (a / b) else if a = 0 then .nan else .inf (decide (a < 0))
  | .nan, _ => .nan
  | _, .nan => .nan
  | .inf _, .inf _ => .nan
  | .inf s, .fin b => .inf (if b < 0 then !s else s)
  | .fin _, .inf _ => .fin 0

/-- The larger of two numbers as `Math.max` takes it: `NaN` if either is. -/
def JNum.max : JNum → JNum → JNum
  | .nan, _ => .nan
  | _, .nan => .nan
  | .inf false, _ => .inf false
  | _, .inf false => .inf false
  | .inf true, b => b
  | a, .inf true => a
  | .fin a, .fin b => .fin (if a < b then b else a)

/-- The call `Math.max(...xs)`, which is negative infinity for no argument. -/
def mathMax (xs : List JNum) : JNum :=
  xs.foldl JNum.max (.inf true)

/-- The call `Math.round(x)`: the integer nearest to `x`, the larger one at a tie. -/
def mathRound : JNum → JNum
  | .fin q => .fin ⌊q + 1 / 2⌋
  | x => x

/-- The call `Number.isInteger(x)`. -/
def isInteger : JNum → Bool
  | .fin q => q.den == 1
  | _ => false

/-- The comparison `x > 0` of a number. -/
def JNum.positive : JNum → Bool
  | .fin q => 0 < q
  | .inf s => !s
  | .nan => false

/-! ### Numeric literals -/

/-- The value of a list of digits in a base; a letter counts from ten. -/
def digitsValue (base : Nat) (ds : List Char) : Nat :=
  ds.foldl (fun a d =>
    base * a + (if d.isDigit then d.toNat - 48 else d.toLower.toNat - 87)) 0

/-- The exponent part that may follow a mantissa: `e` or `E`, an optional sign and at
least one digit.  Gives the scaled value and what follows the literal. -/
def applyExponent (m : ℚ) (cs : List Char) : ℚ × List Char :=
  match cs with
  | e :: rest =>
    if e = 'e' || e = 'E' then
      let (negative, ds) :=
        match rest with
        | '+' :: ds => (false, ds)
        | '-' :: ds => (true, ds)
        | ds => (false, ds)
      let (digits, after) := ds.span Char.isDigit
      if digits.isEmpty then (m, cs)
      else if negative then (m / 10 ^ digitsValue 10 digits, after)
      else (m * 10 ^ digitsValue 10 digits, after)
    else (m, cs)
  | [] => (m, cs)

/-- The longest prefix that is a `StrUnsignedDecimalLiteral` of ECMA-262, with its value
and what follows it; `none` when no prefix is one. -/
def unsignedLiteral (cs : List Char) : Option (JNum × List Char) :=
  if "Infinity".data.isPrefixOf cs then some (.inf false, cs.drop 8)
  else
    let (ip, r1) := cs.span Char.isDigit
    match r1 with
    | '.' :: r2 =>
      let (fp, r3) := r2.span Char.isDigit
      if ip.isEmpty && fp.isEmpty then none
      else
        let (v, after) := applyExponent ((digitsValue 10 (ip ++ fp) : ℚ) / 10 ^ fp.length) r3
        some (.fin v, after)
    | _ =>
      if ip.isEmpty then none
      else
        let (v, after) := applyExponent (digitsValue 10 ip : ℚ) r1
        some (.fin v, after)

/-- The longest prefix that is a `StrDecimalLiteral`: an optional sign and an unsigned
literal. -/
def signedLiteral (cs : List Char) : Option (JNum × List Char) :=
  match cs with
  | '+' :: rest => unsignedLiteral rest
  | '-' :: rest => (unsignedLiteral rest).map fun (x, after) => (x.neg, after)
  | _ => unsignedLiteral cs

/-- The call `parseFloat(s)` on a string: leading whitespace is skipped and the longest
literal prefix is read, whatever follows it; `NaN` when there is none. -/
def parseFloatString (s : String) : JNum :=
  match signedLiteral (trimStartChars s.data) with
  | some (x, _) => x
  | none => .nan

/-- A literal in base 2, 8 or 16 after its two-character prefix: digits of the base and
nothing else. -/
def radixLiteral (base : Nat) (ds : List Char) : JNum :=
  let ok : Char → Bool := fun d =>
    if base = 16 then d.isDigit || ('a' ≤ d.toLower && d.toLower ≤ 'f')
    else d.isDigit && d.toNat - 48 < base
  if !ds.isEmpty && ds.all ok then .fin (digitsValue base ds) else .nan

/-- The conversion `StringToNumber`: the whole trimmed string must be a numeric literal,
and the empty string is zero. -/
def stringToNumber (s : String) : JNum :=
  match trimChars s.data with
  | [] => .fin 0
  | '0' :: 'x' :: ds => radixLiteral 16 ds
  | '0' :: 'X' :: ds => radixLiteral 16 ds
  | '0' :: 'o' :: ds => radixLiteral 8 ds
  | '0' :: 'O' :: ds => radixLiteral 8 ds
  | '0' :: 'b' :: ds => radixLiteral 2 ds
  | '0' :: 'B' :: ds => radixLiteral 2 ds
  | cs =>
    match signedLiteral cs with
    | some (x, []) => x
    | _ => .nan

/-! ### Conversions of values -/

/-- The conversion `ToString` of a value.  An array is its elements joined by a comma,
`null` and `undefined` elements and holes being empty.  An object is converted by
`Object.prototype.toString`. -/
def toStr (h : Host) : JVal → String
  | .undefined => "undefined"
  | .null => "null"
  | .bool b => if b then "true" else "false"
  | .num (.fin q) => h.numberToString q
  | .num .nan => "NaN"
  | .num (.inf s) => if s then "-Infinity" else "Infinity"
  | .str s => s
  | .arr xs _ => ",".intercalate (elems xs)
  | .obj _ => "[object Object]"
  | .inherited n => if n = "__proto__" then "[object Object]" else h.functionToString n
  | .derived _ _ => "[object Object]"
  | .hole => "undefined"
where
  /-- The strings `Array.prototype.join` puts together. -/
  elems : List JVal → List String
    | [] => []
    | .undefined :: xs => "" :: elems xs
    | .null :: xs => "" :: elems xs
    | .hole :: xs => "" :: elems xs
    | x :: xs => toStr h x :: elems xs

/-- The call `xs.join(sep)` on the elements of an array. -/
def joinWith (h : Host) (sep : String) (xs : List JVal) : String :=
  sep.intercalate (toStr.elems h xs)

/-- The conversion `ToNumber` of a value.  An object and a function convert through
their string, which is no numeric literal.  An array converts through the join of its
elements: zero when empty, the conversion of the string of its only element, and `NaN`
with two or more elements, since no literal has a comma. -/
def toNumber : JVal → JNum
  | .undefined => .nan
  | .null => .fin 0
  | .bool b => .fin (if b then 1 else 0)
  | .num x => x
  | .str s => stringToNumber s
  | .arr [] _ => .fin 0
  | .arr [x] _ =>
    match x with
    | .undefined => .fin 0
    | .null => .fin 0
    | .hole => .fin 0
    | .num y => y
    | .str s => stringToNumber s
    | .arr ys ps => toNumber (.arr ys ps)
    | _ => .nan
  | .arr _ _ => .nan
  | .obj _ => .nan
  | .inherited _ => .nan
  | .derived _ _ => .nan
  | .hole => .nan

/-- The call `parseFloat(v)`, which reads the string of `v`.  A number reads back as
itself.  Of an array only the first element can contribute a literal, the comma after
it ending any prefix.  Every other value has a string that starts with no literal. -/
def parseFloat : JVal → JNum
  | .num x => x
  | .str s => parseFloatString s
  | .arr (x :: _) _ =>
    match x with
    | .num y => y
    | .str s => parseFloatString s
    | .arr ys ps => parseFloat (.arr ys ps)
    | _ => .nan
  | _ => .nan

/-- The call `isNaN(x)` on a number. -/
def isNaN : JNum → Bool
  | .nan => true
  | _ => false

/-! ## Methods of arrays on objects that are no arrays

An object whose prototype chain holds an array inherits the methods of
`Array.prototype`, which read the member `length` and the members under the indices
below it. -/

/-- The conversion `ToLength` of a value: its number cut to an integer, not below zero
and not above `2 ^ 53 - 1`; zero for `NaN`. -/
def toLength (v : JVal) : Nat :=
  match toNumber v with
  | .fin q => if q ≤ 0 then 0 else min (Int.toNat ⌊q⌋) (2 ^ 53 - 1)
  | .inf negative => if negative then 0 else 2 ^ 53 - 1
  | .nan => 0

/-- What a method of `Array.prototype` finds on the object `o`: for every index below
the length of `o`, the value under the index, own or inherited, or a hole when `o` has
no property under it. -/
def arrayLikeElems (h : Host) (o : JVal) : List JVal :=
  (List.range (toLength (getProp h o "length"))).map fun i =>
    match hasProperty h (indexKey i) o with
    | .ok true => getProp h o (indexKey i)
    | _ => .hole

/-- The call `Array.prototype.map.call(o, f)` for a callback that does not throw: a new
array of the length of `o`, which cannot be created above `2 ^ 32 - 1`, with `f` of
every element that `o` has and a hole for every other index. -/
def arrayLikeMap (h : Host) (f : JVal → JVal) (o : JVal) : Except Thrown JVal :=
  if 2 ^ 32 - 1 < toLength (getProp h o "length") then .error (.typeError "array length")
  else
    .ok (.arr ((arrayLikeElems h o).map fun x =>
      match x with
      | .hole => .hole
      | y => f y) [])

/-! ## Loading the preprocessor configuration -/

/-- The function `normalizeString` of `loadPreprocessorConfig`. -/
def normalizeString : JVal → JVal
  | .str s => .str (jsTrim s)
  | v => v

mutual
/-- The function `normalizeObjectKeys` of `loadPreprocessorConfig`: an object is rebuilt
from `{}` with every own key trimmed and every value normalized, whatever its prototype
is; an array is mapped, a hole staying a hole; and any other value is returned as it
is. -/
def normalizeObjectKeys : JVal → JVal
  | .obj ps => normalizeEntries ps (.obj [])
  | .derived ps _ => normalizeEntries ps (.obj [])
  | .arr xs _ => .arr (normalizeElems xs) []
  | v => v
/-- The loop of `normalizeObjectKeys` over the entries that remain, `acc` being the
object `normalized` built so far by the assignments of line 26. -/
def normalizeEntries : JObj → JVal → JVal
  | [], acc => acc
  | (k, v) :: ps, acc => normalizeEntries ps (assign acc (jsTrim k) (normalizeObjectKeys v))
/-- The call `obj.map(normalizeObjectKeys)`. -/
def normalizeElems : List JVal → List JVal
  | [] => []
  | x :: xs => normalizeObjectKeys x :: normalizeElems xs
end

/-- The function `normalizeArray` of `loadPreprocessorConfig`,
`arr?.map?.(s => normalizeString(s)) || []`: an array is mapped, a hole staying a hole;
a value without a `map` member gives the empty array; an object that inherits the method
`map` of an array is mapped as that method maps it; any other `map` member is not a
function and cannot be called. -/
def normalizeArray (h : Host) (v : JVal) : Except Thrown JVal :=
  match v with
  | .arr xs _ => .ok (.arr (xs.map normalizeString) [])
  | .undefined => .ok (.arr [] [])
  | .null => .ok (.arr [] [])
  | w =>
    match getProp h w "map" with
    | .undefined => .ok (.arr [] [])
    | .null => .ok (.arr [] [])
    | .inherited n =>
      if n = "map" then arrayLikeMap h normalizeString w else .error (.typeError "call map")
    | _ => .error (.typeError "call map")

/-- Re-materialize one of the three lists of feature names:
`c.k = normalizeArray(c.k)`. -/
def renormalizeField (h : Host) (k : String) (c : JVal) : Except Thrown JVal := do
  let old ← getMember h c k
  let new ← normalizeArray h old
  assignMember c k new

/-- Lines 35 to 41 of `loadPreprocessorConfig`: deep key normalization of the parsed
document, then the three lists of feature names. -/
def normalizeConfig (h : Host) (doc : JVal) : Except Thrown JVal := do
  let c0 := normalizeObjectKeys doc
  let c1 ← renormalizeField h "feature_order" c0
  let c2 ← renormalizeField h "categorical_features" c1
  renormalizeField h "numeric_features" c2

/-- The configuration used when none could be loaded. -/
def defaultConfig : JVal :=
  .obj [("feature_order", .arr [] []), ("categorical_features", .arr [] []),
        ("categorical_encoders", .obj []), ("scaler", .null)]

/-- What reading and parsing the configuration file gave: a failure of `fs.readFile`
with its `code` and message, a `SyntaxError` of `JSON.parse`, or the parsed document. -/
inductive ConfigSource where
  | readError (code : String) (message : String)
  | syntaxError (message : String)
  | parsed (doc : JVal)

/-- What the node reports besides its output messages. -/
inductive Event where
  | log (text : String)
  | warn (text : String)
  | error (text : String)
  | status (fill shape text : String)
  | send (payload : JVal)
  deriving Repr

/-- The `message` of a caught exception. -/
def Thrown.message (h : Host) : Thrown → String
  | .error m => m
  | .typeError site => h.typeErrorMessage site
  | .rejected m => m

/-- The outcome of `loadPreprocessorConfig`: the new `preprocessorConfig`, the returned
boolean and the reports made. -/
structure LoadOutcome where
  config : JVal
  loaded : Bool
  events : List Event

/-- The catch block of `loadPreprocessorConfig`: warn unless the cause is a missing
file, and fall back to the default configuration. -/
def loadFallback (attempt : Event) (warning : Option String) : LoadOutcome :=
  { config := defaultConfig
    loaded := false
    events := [attempt] ++
      (warning.toList.map fun m => Event.warn ("Preprocessor config warning: " ++ m)) ++
      [Event.log "⚠ No preprocessor config found - numeric inputs only"] }

/-- The function `loadPreprocessorConfig`. -/
def loadPreprocessorConfig (h : Host) (configPath : String) (src : ConfigSource) :
    LoadOutcome :=
  let attempt := Event.log ("Attempting to load preprocessor config from: " ++ configPath)
  match src with
  | .readError code m => loadFallback attempt (if code ≠ "ENOENT" then some m else none)
  | .syntaxError m => loadFallback attempt (some m)
  | .parsed doc =>
    match normalizeConfig h doc with
    | .ok c =>
      { config := c
        loaded := true
        events :=
          [attempt, Event.log ("✓ Preprocessor config loaded: " ++ h.basename configPath)] }
    | .error e => loadFallback attempt (some (e.message h))

/-- Whether every string of a value, keys included, is its own trimmed form. -/
def allTrimmed : JVal → Bool
  | .str s => jsTrim s == s
  | .arr xs ps => allTrimmedElems xs && allTrimmedEntries ps
  | .obj ps => allTrimmedEntries ps
  | .derived ps proto => allTrimmedEntries ps && allTrimmed proto
  | _ => true
where
  /-- The same for the elements of an array. -/
  allTrimmedElems : List JVal → Bool
    | [] => true
    | x :: xs => allTrimmed x && allTrimmedElems xs
  /-- The same for the entries of an object. -/
  allTrimmedEntries : JObj → Bool
    | [] => true
    | (k, v) :: ps => jsTrim k == k && allTrimmed v && allTrimmedEntries ps

/-! ## Categorical encoding -/

/-- Whether a value is `null` or `undefined`. -/
def nullish : JVal → Bool
  | .undefined => true
  | .null => true
  | _ => false

/-- The expression `a || b` on values. -/
def orElse (a b : JVal) : JVal :=
  if truthy a then a else b

/-- The call `Object.keys(mapping).find(key => key.toLowerCase() === lowerValue)`. -/
def findCaseInsensitive (h : Host) (lowerValue : String) (mapping : JVal) : Option String :=
  ((ownEntries mapping).map Prod.fst).find? fun key => h.toLowerCase key == lowerValue

/-- The code of an unknown value, lines 83 to 86:
`mapping['__UNKNOWN__'] ?? (values.length > 0 ? Math.max(...values) + 1 : 0)`.  The sum
is exact, as the sum in double precision is for integer codes below `2 ^ 53`. -/
def unknownIdx (h : Host) (mapping : JVal) : JVal :=
  let u := getProp h mapping "__UNKNOWN__"
  if !nullish u then u
  else
    let values := (ownEntries mapping).map Prod.snd
    if 0 < values.length then .num ((mathMax (values.map toNumber)).add (.fin 1))
    else .num (.fin 0)

/-- Line 67: `encoded[feat].trim() || 'MISSING'` on a string. -/
def strValueOf (raw : String) : String :=
  if jsTrim raw ≠ "" then jsTrim raw else "MISSING"

/-- The warning of line 88. -/
def unknownWarning (h : Host) (feat strValue : String) (idx : JVal) : Event :=
  Event.warn ("⚠ Unknown category: " ++ feat ++ "='" ++ strValue ++ "' → " ++ toStr h idx)

/-- Lines 68 to 90 for a string value: the code that replaces it and the warnings
made, or the exception thrown.  The test `if (caseInsensitiveMatch)` of line 79 fails
for a key that is the empty string, as it does when no key is found. -/
def encodeValue (h : Host) (feat : String) (encInfo : JVal) (raw : String) :
    Except Thrown (JVal × List Event) :=
  let strValue := strValueOf raw
  match getMember h encInfo "mapping" with
  | .error e => .error e
  | .ok m =>
    let mapping := orElse m (.obj [])
    match hasProperty h strValue mapping with
    | .error e => .error e
    | .ok true => .ok (getProp h mapping strValue, [])
    | .ok false =>
      match findCaseInsensitive h (h.toLowerCase strValue) mapping with
      | some key =>
        if key ≠ "" then .ok (getProp h mapping key, [])
        else .ok (unknownIdx h mapping, [unknownWarning h feat strValue (unknownIdx h mapping)])
      | none => .ok (unknownIdx h mapping, [unknownWarning h feat strValue (unknownIdx h mapping)])

/-- One turn of the loop of `encodeCategoricalInputs`, for the entry `feat`, `encInfo`
of `categorical_encoders`, on the record `encoded` and the warnings made so far.  An
exception comes with the warnings made before it. -/
def encodeEntry (h : Host) (state : JObj × List Event) (entry : String × JVal) :
    Except (Thrown × List Event) (JObj × List Event) :=
  match hasProperty h entry.1 (.obj state.1), getProp h (.obj state.1) entry.1 with
  | .ok true, .str raw =>
    match encodeValue h entry.1 entry.2 raw with
    | .error e => .error (e, state.2)
    | .ok (code, warnings) => .ok (assignRecord state.1 entry.1 code, state.2 ++ warnings)
  | .error e, _ => .error (e, state.2)
  | _, _ => .ok state

/-- The loop of `encodeCategoricalInputs` over the entries of `categorical_encoders`. -/
def encodeLoop (h : Host) : List (String × JVal) → JObj × List Event →
    Except (Thrown × List Event) (JObj × List Event)
  | [], state => .ok state
  | entry :: rest, state =>
    match encodeEntry h state entry with
    | .error e => .error e
    | .ok state' => encodeLoop h rest state'

/-- The function `encodeCategoricalInputs`, on the loaded configuration and the record:
the encoded record and the warnings made, or the exception thrown and the warnings made
before it. -/
def encodeCategoricalInputs (h : Host) (preprocessorConfig : JVal) (payload : JObj) :
    Except (Thrown × List Event) (JObj × List Event) :=
  let encoders := optMember h preprocessorConfig "categorical_encoders"
  if !truthy encoders then .ok (payload, [])
  else encodeLoop h (ownEntries encoders) (payload, [])

/-! ## Building the tensor -/

/-- An `ort.Tensor` of type float32: its data and its dimensions. -/
structure Tensor where
  data : List JNum
  dims : List Nat
  deriving Repr, DecidableEq

/-- The callback of `feature_order.map`, lines 101 to 110, on an element of the feature
order.  `expected` is the call `preprocessorConfig.feature_order.join(', ')` of line
103, its string or the exception it throws. -/
def orderedFeatureWith (h : Host) (expected : Except Thrown String) (encodedPayload : JObj)
    (feat : JVal) : Except Thrown JNum :=
  match hasProperty h (toStr h feat) (.obj encodedPayload) with
  | .error e => .error e
  | .ok false =>
    match expected with
    | .error e => .error e
    | .ok text =>
      .error (.error ("Missing feature '" ++ toStr h feat ++ "'. Expected: " ++ text))
  | .ok true =>
    let v := getProp h (.obj encodedPayload) (toStr h feat)
    let val := parseFloat v
    if isNaN val then
      .error (.error ("Non-numeric after encoding: " ++ toStr h feat ++ "='" ++ toStr h v ++ "'"))
    else .ok val

/-- The callback of `feature_order.map`, lines 101 to 110, for a feature order that is
an array, whose elements are `featureOrder`. -/
def orderedFeature (h : Host) (featureOrder : List JVal) (encodedPayload : JObj)
    (feat : JVal) : Except Thrown JNum :=
  orderedFeatureWith h (.ok (joinWith h ", " featureOrder)) encodedPayload feat

/-- What `map` does at one index of the feature order: the callback is not called for a
hole, which stays a hole in the features and is `NaN` in the tensor. -/
def orderedElement (h : Host) (expected : Except Thrown String) (encodedPayload : JObj)
    (x : JVal) : Except Thrown JNum :=
  match x with
  | .hole => .ok .nan
  | feat => orderedFeatureWith h expected encodedPayload feat

/-- The call `o.join(', ')` on an object that is no array: the method `join` of an array
that `o` inherits joins the elements it finds on `o`; any other member cannot be
called. -/
def arrayLikeJoin (h : Host) (o : JVal) : Except Thrown String :=
  match getProp h o "join" with
  | .inherited n =>
    if n = "join" then .ok (joinWith h ", " (arrayLikeElems h o))
    else .error (.typeError "call join")
  | _ => .error (.typeError "call join")

/-- The callback of `Object.values(encodedPayload).map`, lines 112 to 118. -/
def plainFeature (h : Host) (v : JVal) : Except Thrown JNum :=
  let val := parseFloat v
  if isNaN val then
    .error (.error ("Non-numeric input: " ++ toStr h v ++ " (no preprocessor config loaded)"))
  else .ok val

/-- The call `xs.map(f)` with a callback that can throw: the first exception ends it. -/
def mapExcept {α β : Type} (f : α → Except Thrown β) : List α → Except Thrown (List β)
  | [] => .ok []
  | x :: xs =>
    match f x with
    | .error e => .error e
    | .ok y =>
      match mapExcept f xs with
      | .error e => .error e
      | .ok ys => .ok (y :: ys)

/-- The comparison `v > 0` on a value. -/
def greaterThanZero (v : JVal) : Bool :=
  (toNumber v).positive

/-- Lines 100 to 119 of `prepareInputTensor`: the features in the configured order, or
the values of the record when no order is configured. -/
def collectFeatures (h : Host) (preprocessorConfig : JVal) (encodedPayload : JObj) :
    Except Thrown (List JNum) :=
  let featureOrder := optMember h preprocessorConfig "feature_order"
  if greaterThanZero (optMember h featureOrder "length") then
    match featureOrder with
    | .arr names _ =>
      mapExcept (orderedElement h (.ok (joinWith h ", " names)) encodedPayload) names
    | other =>
      match getProp h other "map" with
      | .inherited n =>
        if n = "map" then
          if 2 ^ 32 - 1 < toLength (getProp h other "length") then
            .error (.typeError "array length")
          else
            mapExcept (orderedElement h (arrayLikeJoin h other) encodedPayload)
              (arrayLikeElems h other)
        else .error (.typeError "call map")
      | _ => .error (.typeError "call map")
  else mapExcept (plainFeature h) (encodedPayload.map Prod.snd)

/-- The callback of `features.map`, line 124: `(val - mean[i]) / scale[i]`. -/
def scaleFeature (h : Host) (mean scale : JVal) (val : JNum) (i : Nat) : JNum :=
  (val.sub (toNumber (getIndex h mean i))).div (toNumber (getIndex h scale i))

/-- Map a function over a list together with the index of each element, from `i` on. -/
def mapWithIndex {α β : Type} (f : α → Nat → β) (i : Nat) : List α → List β
  | [] => []
  | x :: xs => f x i :: mapWithIndex f (i + 1) xs

/-- The comparison `v === n` of a value with a length. -/
def strictEqualsNat (v : JVal) (n : Nat) : Bool :=
  match v with
  | .num (.fin q) => q = n
  | _ => false

/-- The comparison `v === s` of a value with a string. -/
def strictEqualsStr (v : JVal) (s : String) : Bool :=
  match v with
  | .str t => t = s
  | _ => false

/-- Lines 121 to 126 of `prepareInputTensor`: standardization, applied when the scaler
is of type "standard" and `mean` and `scale` both have the length of the features. -/
def applyScaler (h : Host) (preprocessorConfig : JVal) (features : List JNum) : List JNum :=
  let scaler := optMember h preprocessorConfig "scaler"
  if strictEqualsStr (optMember h scaler "type") "standard" then
    let mean := getProp h scaler "mean"
    let scale := getProp h scaler "scale"
    if strictEqualsNat (optMember h mean "length") features.length &&
        strictEqualsNat (optMember h scale "length") features.length then
      mapWithIndex (scaleFeature h mean scale) 0 features
    else features
  else features

/-- The function `prepareInputTensor`, on the loaded configuration and the record: the
tensor and the warnings made, or the exception thrown and the warnings made before
it. -/
def prepareInputTensor (h : Host) (preprocessorConfig : JVal) (payload : JObj) :
    Except (Thrown × List Event) (Tensor × List Event) :=
  match encodeCategoricalInputs h preprocessorConfig payload with
  | .error e => .error e
  | .ok (encodedPayload, warnings) =>
    match collectFeatures h preprocessorConfig encodedPayload with
    | .error e => .error (e, warnings)
    | .ok features =>
      let scaled := applyScaler h preprocessorConfig features
      .ok ({ data := scaled, dims := [1, scaled.length] }, warnings)

/-! ## The input handler -/

/-- A loaded `ort.InferenceSession`: the declared names and the outcome of `run` on the
feeds, a record of output name to result tensor or a rejection. -/
structure Session where
  inputNames : List String
  outputNames : List String
  run : List (String × Tensor) → Except Thrown JObj

/-- The property key of `names[0]`, which is `undefined` for an empty list. -/
def firstName (names : List String) : String :=
  match names with
  | [] => "undefined"
  | n :: _ => n

/-- The expression `v?.data[0]`: `undefined` when `v` is `null` or `undefined`, else
element 0 of the member `data`, a `TypeError` when that member is missing. -/
def firstDatum (h : Host) (v : JVal) : Except Thrown JVal :=
  if nullish v then .ok .undefined
  else if nullish (getProp h v "data") then .error (.typeError "read 0 of data")
  else .ok (getIndex h (getProp h v "data") 0)

/-- Line 168:
`results.label?.data[0] || results[session.outputNames[0]]?.data[0]`. -/
def rawPrediction (h : Host) (outputNames : List String) (results : JObj) :
    Except Thrown JVal :=
  match firstDatum h (getProp h (.obj results) "label") with
  | .error e => .error e
  | .ok a =>
    if truthy a then .ok a
    else firstDatum h (getProp h (.obj results) (firstName outputNames))

/-- Lines 169 to 171: a number that is not an integer is rounded. -/
def roundPrediction : JVal → JVal
  | .num x => if !isInteger x then .num (mathRound x) else .num x
  | v => v

/-- The try block of the input handler up to the prediction. -/
def infer (h : Host) (session : Session) (preprocessorConfig : JVal) (payload : JObj) :
    Except (Thrown × List Event) (JVal × List Event) :=
  match prepareInputTensor h preprocessorConfig payload with
  | .error e => .error e
  | .ok (inputTensor, warnings) =>
    match session.run [(firstName session.inputNames, inputTensor)] with
    | .error e => .error (e, warnings)
    | .ok results =>
      match rawPrediction h session.outputNames results with
      | .error e => .error (e, warnings)
      | .ok prediction => .ok (roundPrediction prediction, warnings)

/-- The payload of a successful inference. -/
def successPayload (prediction : JVal) (timestamp : String) : JVal :=
  .obj [("prediction", prediction), ("status", .str "success"), ("timestamp", .str timestamp)]

/-- The payload of a failed inference. -/
def errorPayload (message : String) : JVal :=
  .obj [("error", .str message), ("status", .str "error")]

/-- The handler of `node.on('input')`, on the session and the configuration loaded so
far, the text of `new Date().toISOString()` and the payload of the message: what the
node reports and sends, in order. -/
def onInput (h : Host) (session : Option Session) (preprocessorConfig : JVal)
    (timestamp : String) (payload : JObj) : List Event :=
  match session with
  | none => [Event.error "ONNX session not ready."]
  | some s =>
    Event.status "blue" "dot" "Inferring..." ::
    match infer h s preprocessorConfig payload with
    | .ok (prediction, warnings) =>
      warnings ++ [Event.status "green" "dot" "Ready",
        Event.send (successPayload prediction timestamp)]
    | .error (e, warnings) =>
      warnings ++ [Event.error ("Inference failed: " ++ e.message h),
        Event.status "red" "dot" "Error", Event.send (errorPayload (e.message h))]

/-- The payloads sent downstream among the reports of the node. -/
def sent : List Event → List JVal
  | [] => []
  | .send p :: es => p :: sent es
  | _ :: es => sent es

/-- A host for evaluating examples: the case mapping of ASCII letters, and numbers
printed as Lean prints rationals, which for an integer is its decimal numeral. -/
def sampleHost : Host where
  toLowerCase s := String.mk (s.data.map Char.toLower)
  numberToString q := toString q
  functionToString n := "function " ++ n ++ "() \x7b [native code] \x7d"
  arrayPrototypeKeys := ["map", "join", "push", "find"]
  typeErrorMessage s := "TypeError: " ++ s
  basename p := p

/-- An encoder specification whose use cannot throw: it is neither `null` nor
`undefined`, and its member `mapping` is falsy (then the empty mapping stands for it)
or an object. -/
def usableEncoder (h : Host) (encInfo : JVal) : Bool :=
  !nullish encInfo &&
    match orElse (getProp h encInfo "mapping") (.obj []) with
    | .obj _ => true
    | .arr _ _ => true
    | .inherited _ => true
    | _ => false

/-- Whether a member `mean` or `scale` does not have the length `n`: it is missing
(`undefined` or `null`), an array or a string of another length, a boolean or a number,
which have no length, or an object whose member `length` is not the number `n`. -/
def lengthDiffers : JVal → Nat → Bool
  | .arr xs _, n => xs.length != n
  | .str s, n => utf16Length s != n
  | .obj ps, n =>
    match lookup "length" ps with
    | some (.num (.fin q)) => q != n
    | _ => true
  | .inherited _, _ => false
  | .derived _ _, _ => false
  | _, _ => true

/-- The numbers of a list as values, an array of numbers read from JSON. -/
def numbers (qs : List ℚ) : List JVal :=
  qs.map fun q => .num (.fin q)

/-- Whether a report is a warning. -/
def isWarn : Event → Bool
  | .warn _ => true
  | _ => false

/-- The reports that come with an outcome, normal or exceptional. -/
def reports {α : Type} : Except (Thrown × List Event) (α × List Event) → List Event
  | .ok (_, es) => es
  | .error (_, es) => es

/-! ## Sample inputs -/

/-- A configuration document in which the scaler type has blanks around it. -/
def untrimmedDoc : JVal :=
  .obj [("feature_order", .arr [.str " x "] []),
        ("scaler", .obj [("type", .str " standard "), ("mean", .arr [.num (.fin 5)] []),
                         ("scale", .arr [.num (.fin 5)] [])])]

/-- The outputs of a classifier that predicts class 0 with probability 0.1 for
class 1. -/
def labelZeroResults : JObj :=
  [("probabilities", .obj [("data", .arr [.num (.fin (9 / 10)), .num (.fin (1 / 10))] [])]),
   ("label", .obj [("data", .arr [.num (.fin 0)] [])])]

/-- A session that declares the output "probabilities" before the output "label" and
answers every request with `labelZeroResults`. -/
def labelZeroSession : Session where
  inputNames := ["float_input"]
  outputNames := ["probabilities", "label"]
  run _ := .ok labelZeroResults

/-- A mapping of two job titles, neither of them "constructor" in any case. -/
def jobMapping : JObj :=
  [("engineer", .num (.fin 0)), ("teacher", .num (.fin 1))]

/-- A mapping of two job titles, the first being "Constructor" with a capital. -/
def capitalMapping : JObj :=
  [("Constructor", .num (.fin 0)), ("Worker", .num (.fin 1))]

/-- A mapping with two keys that differ by case only. -/
def caseMapping : JObj :=
  [("RED", .num (.fin 0)), ("red", .num (.fin 1))]

/-- A configuration whose only content is an encoder for the feature "job". -/
def jobConfig (mapping : JObj) : JVal :=
  .obj [("feature_order", .arr [] []),
        ("categorical_encoders", .obj [("job", .obj [("mapping", .obj mapping)])]),
        ("scaler", .null)]

/-- A configuration that orders the features "x" and "y", encodes none and scales
none. -/
def orderConfig : JVal :=
  .obj [("feature_order", .arr [.str "x", .str "y"] []),
        ("categorical_encoders", .obj []),
        ("scaler", .null)]

/-- A configuration that orders the features "a" and "b" and has a scaler of type
"standard" with the given `mean` and `scale`. -/
def scaleConfig (mean scale : List ℚ) : JVal :=
  .obj [("feature_order", .arr [.str "a", .str "b"] []),
        ("categorical_encoders", .obj []),
        ("scaler", .obj [("type", .str "standard"), ("mean", .arr (numbers mean) []),
                         ("scale", .arr (numbers scale) [])])]

/-- A configuration that orders the features "constructor" and "grid" and encodes
none. -/
def gridConfig : JVal :=
  .obj [("feature_order", .arr [.str "constructor", .str "grid"] []),
        ("categorical_encoders", .obj []),
        ("scaler", .null)]

/-- The texts of the warnings among the reports. -/
def warnings : List Event → List String
  | [] => []
  | .warn t :: es => t :: warnings es
  | _ :: es => warnings es

/-- The call `s.replace(/\.onnx$/, '.json')`: the suffix ".onnx" at the end of the
string becomes ".json", and a string without that suffix is returned as it is. -/
def replaceOnnxSuffix (s : String) : String :=
  if ".onnx".data.isSuffixOf s.data then
    String.mk (s.data.take (s.data.length - 5) ++ ".json".data)
  else s

/-- Line 133 of `loadModel`: `path.resolve(config.onnxPath)`, `resolve` being
`path.resolve`. -/
def modelPath (resolve : String → String) (onnxPath : String) : String :=
  resolve onnxPath

/-- Lines 135 to 137 of `loadModel`: the location of the configuration, from
`config.onnxPath` and `config.preprocessorPath`, which may be unset or empty. -/
def configPath (resolve : String → String) (onnxPath : String)
    (preprocessorPath : Option String) : String :=
  match preprocessorPath with
  | some p => if p ≠ "" then resolve p else replaceOnnxSuffix (modelPath resolve onnxPath)
  | none => replaceOnnxSuffix (modelPath resolve onnxPath)

/-- A session whose output "label" holds 2.6. -/
def fractionSession : Session where
  inputNames := ["float_input"]
  outputNames := ["label"]
  run _ := .ok [("label", .obj [("data", .arr [.num (.fin (13 / 5))] [])])]

/-- A session whose output "label" holds the given number. -/
def numberSession (x : JNum) : Session where
  inputNames := ["float_input"]
  outputNames := ["label"]
  run _ := .ok [("label", .obj [("data", .arr [.num x] [])])]

/-- The value the encoded record holds under a feature, if the encoding returns. -/
def encodedFeature (h : Host) (preprocessorConfig : JVal) (payload : JObj)
    (feat : String) : Option JVal :=
  match encodeCategoricalInputs h preprocessorConfig payload with
  | .ok (encoded, _) => lookup feat encoded
  | .error _ => none

/-- The mapping of the values "a" and "b". -/
def abMapping : JObj :=
  [("a", .num (.fin 0)), ("b", .num (.fin 1))]

/-- A configuration whose encoder for "color" has the field `__UNKNOWN__` beside its
mapping. -/
def unknownBesideConfig : JVal :=
  .obj [("categorical_encoders",
    .obj [("color", .obj [("mapping", .obj abMapping), ("__UNKNOWN__", .num (.fin 99))])])]

/-- The mapping of the values "a" and "b" with the key `__UNKNOWN__`. -/
def markedMapping : JObj :=
  abMapping ++ [("__UNKNOWN__", .num (.fin 99))]

/-- A configuration whose encoder for "color" has the key `__UNKNOWN__` inside its
mapping. -/
def unknownInsideConfig : JVal :=
  .obj [("categorical_encoders", .obj [("color", .obj [("mapping", .obj markedMapping)])])]

/-- A mapping with a negative code and a gap between its codes. -/
def gapMapping : JObj :=
  [("low", .num (.fin (-3))), ("high", .num (.fin 10))]

/-- A configuration whose only content is an encoder for the feature "level" with the
mapping `gapMapping`. -/
def gapConfig : JVal :=
  .obj [("categorical_encoders", .obj [("level", .obj [("mapping", .obj gapMapping)])])]

/-- How an entry `q` of the encoded record stands to the entry `p` of the record in its
place, `keys` being the keys of `categorical_encoders`: the key is the same, and the
value is the same unless the key is configured and the value is a string. -/
def framed (keys : List String) (p q : String × JVal) : Prop :=
  q.1 = p.1 ∧ ((p.1 ∉ keys ∨ ∀ raw, p.2 ≠ .str raw) → q.2 = p.2)

/-- Whether `typeof v` is "number". -/
def isNumber : JVal → Bool
  | .num _ => true
  | _ => false

/-- An encoder specification that can be used and whose mapping has numbers for
codes. -/
def numericEncoder (h : Host) (encInfo : JVal) : Bool :=
  !nullish encInfo &&
    match orElse (getProp h encInfo "mapping") (.obj []) with
    | .obj mapping => mapping.all fun entry => isNumber entry.2
    | _ => false

/-- Whether a character list begins with an unsigned numeric literal: with "Infinity",
with a digit, or with a point and a digit. -/
def startsUnsigned (cs : List Char) : Bool :=
  "Infinity".data.isPrefixOf cs ||
    match cs with
    | c :: rest =>
      c.isDigit ||
        (c == '.' &&
          match rest with
          | d :: _ => d.isDigit
          | [] => false)
    | [] => false

/-- Whether a character list begins with a numeric literal: an optional sign and the
beginning of an unsigned literal. -/
def startsNumeric (cs : List Char) : Bool :=
  match cs with
  | '+' :: rest => startsUnsigned rest
  | '-' :: rest => startsUnsigned rest
  | _ => startsUnsigned cs

/-- Whether a string has a numeric prefix: after its leading whitespace it begins with
a numeric literal. -/
def hasNumericPrefix (s : String) : Bool :=
  startsNumeric (trimStartChars s.data)

/-- A document with the key `__proto__` twice after trimming: once holding `null`, once
holding 5. -/
def protoDoc : JVal :=
  .obj [(" __proto__", .null), ("__proto__", .num (.fin 5))]

/-- The normalized form of `protoDoc`: an object without prototype, which has the
property `__proto__` for its own. -/
def protoNormal : JVal :=
  .derived [("__proto__", .num (.fin 5)), ("feature_order", .arr [] []),
    ("categorical_features", .arr [] []), ("numeric_features", .arr [] [])] .null

/-- The normalized form of `protoNormal`. -/
def protoAgain : JVal :=
  .obj [("feature_order", .arr [] []), ("categorical_features", .arr [] []),
    ("numeric_features", .arr [] [])]

/-- A document that holds a feature order and a scaler under a key that is `__proto__`
after trimming. -/
def inheritDoc : JVal :=
  .obj [(" __proto__", .obj [("feature_order", .arr [.str "x"] []),
    ("scaler", .obj [("type", .str "standard")])])]

/-- The normalized form of `inheritDoc`: the object under `__proto__` has become the
prototype, and the feature order read through it an own property. -/
def inheritNormal : JVal :=
  .derived [("feature_order", .arr [.str "x"] []), ("categorical_features", .arr [] []),
      ("numeric_features", .arr [] [])]
    (.obj [("feature_order", .arr [.str "x"] []),
      ("scaler", .obj [("type", .str "standard")])])

/-- The normalized form of `inheritNormal`. -/
def inheritAgain : JVal :=
  .obj [("feature_order", .arr [.str "x"] []), ("categorical_features", .arr [] []),
    ("numeric_features", .arr [] [])]

end FavoriotML





namespace FavoriotML

/-! ## Reports and messages -/

theorem sent_append (xs ys : List Event) : sent (xs ++ ys) = sent xs ++ sent ys := by
  induction xs with
  | nil => rfl
  | cons e es ih => cases e <;> simp [sent, ih]

theorem sent_warnings (es : List Event) (hw : ∀ e ∈ es, isWarn e = true) : sent es = [] := by
  induction es with
  | nil => rfl
  | cons e es ih =>
    have he := hw e (List.mem_cons_self _ _)
    have ht := ih fun x hx => hw x (List.mem_cons_of_mem _ hx)
    cases e <;> simp_all [sent, isWarn]

theorem encodeValue_warnings (h : Host) (feat : String) (encInfo : JVal) (raw : String)
    (code : JVal) (ws : List Event) (hv : encodeValue h feat encInfo raw = .ok (code, ws)) :
    ∀ e ∈ ws, isWarn e = true := by
  unfold encodeValue at hv
  split at hv
  · cases hv
  · dsimp only at hv
    split at hv
    · cases hv
    · cases hv; simp
    · split at hv
      · split at hv <;> cases hv <;> simp [unknownWarning, isWarn]
      · cases hv; simp [unknownWarning, isWarn]

theorem encodeEntry_warnings (h : Host) (state : JObj × List Event) (entry : String × JVal)
    (hs : ∀ e ∈ state.2, isWarn e = true) :
    ∀ e ∈ reports (encodeEntry h state entry), isWarn e = true := by
  unfold encodeEntry
  split
  · next raw _ _ =>
    cases hv : encodeValue h entry.1 entry.2 raw with
    | error t => simpa [reports] using hs
    | ok r =>
      obtain ⟨code, ws⟩ := r
      have hw := encodeValue_warnings h _ _ _ _ _ hv
      intro e he
      simp only [reports, List.mem_append] at he
      rcases he with he | he
      · exact hs e he
      · exact hw e he
  · simpa [reports] using hs
  · obtain ⟨enc, es⟩ := state
    simpa [reports] using hs

theorem encodeLoop_warnings (h : Host) (entries : List (String × JVal))
    (state : JObj × List Event) (hs : ∀ e ∈ state.2, isWarn e = true) :
    ∀ e ∈ reports (encodeLoop h entries state), isWarn e = true := by
  induction entries generalizing state with
  | nil => obtain ⟨enc, es⟩ := state; simpa [encodeLoop, reports] using hs
  | cons entry rest ih =>
    have h1 := encodeEntry_warnings h state entry hs
    unfold encodeLoop
    cases hstep : encodeEntry h state entry with
    | error t => obtain ⟨t, es⟩ := t; rw [hstep] at h1; simpa [reports] using h1
    | ok st =>
      rw [hstep] at h1
      obtain ⟨enc, es⟩ := st
      exact ih (enc, es) (by simpa [reports] using h1)

theorem encodeCategoricalInputs_warnings (h : Host) (cfg : JVal) (payload : JObj) :
    ∀ e ∈ reports (encodeCategoricalInputs h cfg payload), isWarn e = true := by
  unfold encodeCategoricalInputs
  by_cases ht : truthy (optMember h cfg "categorical_encoders")
  · simp only [ht, Bool.not_true, Bool.false_eq_true, if_false]
    exact encodeLoop_warnings h _ _ (by simp)
  · simp [ht, reports]

theorem prepareInputTensor_warnings (h : Host) (cfg : JVal) (payload : JObj) :
    ∀ e ∈ reports (prepareInputTensor h cfg payload), isWarn e = true := by
  have h1 := encodeCategoricalInputs_warnings h cfg payload
  unfold prepareInputTensor
  cases he : encodeCategoricalInputs h cfg payload with
  | error t => obtain ⟨t, es⟩ := t; rw [he] at h1; simpa [reports] using h1
  | ok r =>
    obtain ⟨enc, ws⟩ := r
    rw [he] at h1
    cases hc : collectFeatures h cfg enc <;> simpa [reports, hc] using h1

theorem infer_warnings (h : Host) (s : Session) (cfg : JVal) (payload : JObj) :
    ∀ e ∈ reports (infer h s cfg payload), isWarn e = true := by
  have h1 := prepareInputTensor_warnings h cfg payload
  unfold infer
  cases hp : prepareInputTensor h cfg payload with
  | error t => obtain ⟨t, es⟩ := t; rw [hp] at h1; simpa [reports] using h1
  | ok r =>
    obtain ⟨tensor, ws⟩ := r
    rw [hp] at h1
    cases hr : s.run [(firstName s.inputNames, tensor)] with
    | error t => simpa [reports, hr] using h1
    | ok results =>
      cases hq : rawPrediction h s.outputNames results <;> simpa [reports, hr, hq] using h1

/-! ## Property lists -/

theorem getProp_obj (h : Host) (ps : JObj) (k : String) :
    getProp h (.obj ps) k = (lookup k ps).getD (inheritedValue k) := by
  unfold getProp
  simp only [hiddenOwn, ownEntries, List.nil_append]
  cases lookup k ps <;> rfl

theorem inheritedValue_ne_str (k raw : String) : inheritedValue k ≠ .str raw := by
  unfold inheritedValue
  split <;> simp

/-- Reading a string from an object means the object has it as an own property. -/
theorem lookup_of_getProp_str (h : Host) (ps : JObj) (k raw : String)
    (hg : getProp h (.obj ps) k = .str raw) : lookup k ps = some (.str raw) := by
  rw [getProp_obj] at hg
  cases hl : lookup k ps with
  | none => rw [hl] at hg; exact absurd hg (inheritedValue_ne_str k raw)
  | some v => rw [hl] at hg; simpa using hg

theorem lookup_replaceOwn_self (k : String) (x : JVal) (ps : JObj)
    (hk : (lookup k ps).isSome = true) : lookup k (replaceOwn k x ps) = some x := by
  induction ps with
  | nil => simp [lookup] at hk
  | cons p ps ih =>
    obtain ⟨k', v⟩ := p
    by_cases hkk : k' = k
    · simp [replaceOwn, lookup, hkk]
    · simp only [lookup, hkk, if_false] at hk
      simp [replaceOwn, lookup, hkk, ih hk]

theorem lookup_replaceOwn_other (k k' : String) (x : JVal) (ps : JObj) (hne : k' ≠ k) :
    lookup k' (replaceOwn k x ps) = lookup k' ps := by
  induction ps with
  | nil => rfl
  | cons p ps ih =>
    obtain ⟨k0, v⟩ := p
    by_cases hkk : k0 = k
    · subst hkk
      have : ¬ k0 = k' := fun hc => hne hc.symm
      simp [replaceOwn, lookup, this]
    · by_cases hk2 : k0 = k'
      · subst hk2
        simp [replaceOwn, lookup, hkk]
      · simp [replaceOwn, lookup, hkk, hk2, ih]

theorem assignRecord_of_own (k : String) (x : JVal) (ps : JObj)
    (hk : (lookup k ps).isSome = true) : assignRecord ps k x = replaceOwn k x ps := by
  simp [assignRecord, assign, ownEntries, defineOwn, hasOwn, hk]

/-! ## The encoding loop -/

theorem encodeEntry_string (h : Host) (state : JObj × List Event) (entry : String × JVal)
    (raw : String) (hraw : lookup entry.1 state.1 = some (.str raw)) :
    encodeEntry h state entry =
      match encodeValue h entry.1 entry.2 raw with
      | .error e => .error (e, state.2)
      | .ok (code, warnings) => .ok (assignRecord state.1 entry.1 code, state.2 ++ warnings) := by
  have hg : getProp h (.obj state.1) entry.1 = .str raw := by
    rw [getProp_obj, hraw]; rfl
  have hp : hasProperty h entry.1 (.obj state.1) = .ok true := by
    simp [hasProperty, hasOwn, hraw]
  unfold encodeEntry
  rw [hg, hp]

/-- A turn of the loop for another feature leaves the value of `feat` as it is. -/
theorem encodeEntry_other (h : Host) (state state' : JObj × List Event)
    (entry : String × JVal) (feat : String) (hne : feat ≠ entry.1)
    (hstep : encodeEntry h state entry = .ok state') :
    lookup feat state'.1 = lookup feat state.1 := by
  unfold encodeEntry at hstep
  split at hstep
  · next raw _ hg =>
    have hown := lookup_of_getProp_str h _ _ _ hg
    cases hv : encodeValue h entry.1 entry.2 raw with
    | error t => rw [hv] at hstep; cases hstep
    | ok r =>
      obtain ⟨code, ws⟩ := r
      rw [hv] at hstep
      cases hstep
      rw [assignRecord_of_own _ _ _ (by simp [hown])]
      exact lookup_replaceOwn_other _ _ _ _ hne
  · cases hstep
  · cases hstep; rfl

theorem encodeLoop_other (h : Host) (entries : List (String × JVal)) (feat : String)
    (hnot : feat ∉ entries.map Prod.fst) (state state' : JObj × List Event)
    (hloop : encodeLoop h entries state = .ok state') :
    lookup feat state'.1 = lookup feat state.1 := by
  induction entries generalizing state with
  | nil => simp only [encodeLoop] at hloop; cases hloop; rfl
  | cons entry rest ih =>
    simp only [List.map_cons, List.mem_cons, not_or] at hnot
    unfold encodeLoop at hloop
    cases hstep : encodeEntry h state entry with
    | error t => rw [hstep] at hloop; cases hloop
    | ok st =>
      rw [hstep] at hloop
      rw [ih hnot.2 st hloop]
      exact encodeEntry_other h state st entry feat hnot.1 hstep

theorem encodeValue_usable (h : Host) (feat : String) (encInfo : JVal) (raw : String)
    (hu : usableEncoder h encInfo = true) :
    ∃ r, encodeValue h feat encInfo raw = .ok r := by
  unfold usableEncoder at hu
  simp only [Bool.and_eq_true, Bool.not_eq_true'] at hu
  obtain ⟨hnn, hm⟩ := hu
  have hget : getMember h encInfo "mapping" = .ok (getProp h encInfo "mapping") := by
    cases encInfo <;> simp_all [getMember, nullish]
  unfold encodeValue
  rw [hget]
  dsimp only
  generalize orElse (getProp h encInfo "mapping") (.obj []) = mapping at hm ⊢
  cases mapping <;> simp only [reduceCtorEq] at hm
  all_goals
    simp only [hasProperty]
    split
    · next heq => cases heq
    · exact ⟨_, rfl⟩
    · split
      · split <;> exact ⟨_, rfl⟩
      · exact ⟨_, rfl⟩

theorem encodeEntry_usable (h : Host) (state : JObj × List Event) (entry : String × JVal)
    (hu : usableEncoder h entry.2 = true) :
    ∃ state', encodeEntry h state entry = .ok state' := by
  unfold encodeEntry
  split
  · next raw _ _ =>
    obtain ⟨r, hr⟩ := encodeValue_usable h entry.1 entry.2 raw hu
    rw [hr]
    exact ⟨_, rfl⟩
  · next e _ hp => simp [hasProperty] at hp
  · exact ⟨_, rfl⟩

theorem encodeLoop_usable (h : Host) (entries : List (String × JVal))
    (hu : ∀ e ∈ entries, usableEncoder h e.2 = true) (state : JObj × List Event) :
    ∃ state', encodeLoop h entries state = .ok state' := by
  induction entries generalizing state with
  | nil => exact ⟨state, rfl⟩
  | cons entry rest ih =>
    obtain ⟨st, hst⟩ := encodeEntry_usable h state entry (hu entry (List.mem_cons_self _ _))
    obtain ⟨st', hst'⟩ := ih (fun e he => hu e (List.mem_cons_of_mem _ he)) st
    exact ⟨st', by simp only [encodeLoop, hst, hst']⟩

theorem encodeLoop_append (h : Host) (xs ys : List (String × JVal))
    (state : JObj × List Event) :
    encodeLoop h (xs ++ ys) state =
      match encodeLoop h xs state with
      | .error e => .error e
      | .ok state' => encodeLoop h ys state' := by
  induction xs generalizing state with
  | nil => rfl
  | cons x xs ih =>
    simp only [List.cons_append, encodeLoop]
    cases encodeEntry h state x with
    | error e => rfl
    | ok st => exact ih st

theorem encodeCategoricalInputs_obj (h : Host) (cfg : JVal) (encoders payload : JObj)
    (hcfg : optMember h cfg "categorical_encoders" = .obj encoders) :
    encodeCategoricalInputs h cfg payload = encodeLoop h encoders (payload, []) := by
  simp [encodeCategoricalInputs, hcfg, truthy, ownEntries]

theorem strValueOf_blank (blank : String) (hb : jsTrim blank = "") :
    strValueOf blank = "MISSING" := by
  simp [strValueOf, hb]

theorem strValueOf_missing : strValueOf "MISSING" = "MISSING" := by
  decide

/-- The code of a value that is an own key of the mapping is the value under that
key. -/
theorem encodeValue_exact (h : Host) (feat : String) (encInfo : JVal) (mapping : JObj)
    (raw : String) (code : JVal) (hu : usableEncoder h encInfo = true)
    (hmap : getProp h encInfo "mapping" = .obj mapping)
    (hkey : lookup (strValueOf raw) mapping = some code) :
    encodeValue h feat encInfo raw = .ok (code, []) := by
  have hget : getMember h encInfo "mapping" = .ok (.obj mapping) := by
    rw [← hmap]
    cases encInfo <;> simp_all [getMember, usableEncoder, nullish]
  have hin : hasProperty h (strValueOf raw) (.obj mapping) = .ok true := by
    simp [hasProperty, hasOwn, hkey]
  unfold encodeValue
  rw [hget]
  simp only [orElse, truthy, if_true, hin, getProp_obj, hkey, Option.getD_some]

/-- The encoded record holds, under a configured feature with a string value, the code
that `encodeValue` gives for that value. -/
theorem encode_sets_feature (h : Host) (cfg : JVal) (encoders payload : JObj)
    (feat : String) (encInfo : JVal) (raw : String) (code : JVal) (ws : List Event)
    (hcfg : optMember h cfg "categorical_encoders" = .obj encoders)
    (hkeys : (encoders.map Prod.fst).Nodup)
    (husable : ∀ e ∈ encoders, usableEncoder h e.2 = true)
    (hfeat : (feat, encInfo) ∈ encoders)
    (hraw : lookup feat payload = some (.str raw))
    (hval : encodeValue h feat encInfo raw = .ok (code, ws)) :
    ∃ encoded warnings, encodeCategoricalInputs h cfg payload = .ok (encoded, warnings) ∧
      lookup feat encoded = some code := by
  rw [encodeCategoricalInputs_obj h cfg encoders payload hcfg]
  obtain ⟨pre, post, rfl⟩ := List.append_of_mem hfeat
  simp only [List.map_append, List.map_cons] at hkeys
  have hpre : feat ∉ pre.map Prod.fst := fun hc =>
    (List.nodup_append.1 hkeys).2.2 hc (List.mem_cons_self _ _)
  have hpost : feat ∉ post.map Prod.fst :=
    (List.nodup_cons.1 (List.nodup_append.1 hkeys).2.1).1
  have hu1 : ∀ e ∈ pre, usableEncoder h e.2 = true := fun e he =>
    husable e (List.mem_append_left _ he)
  have hu3 : ∀ e ∈ post, usableEncoder h e.2 = true := fun e he =>
    husable e (List.mem_append_right _ (List.mem_cons_of_mem _ he))
  obtain ⟨st1, h1⟩ := encodeLoop_usable h pre hu1 (payload, [])
  have hl1 : lookup feat st1.1 = some (.str raw) := by
    rw [encodeLoop_other h pre feat hpre _ _ h1]; exact hraw
  have h2 : encodeEntry h st1 (feat, encInfo) = .ok (assignRecord st1.1 feat code, st1.2 ++ ws) := by
    rw [encodeEntry_string h st1 (feat, encInfo) raw hl1, hval]
  have hl2 : lookup feat (assignRecord st1.1 feat code) = some code := by
    rw [assignRecord_of_own _ _ _ (by simp [hl1])]
    exact lookup_replaceOwn_self _ _ _ (by simp [hl1])
  obtain ⟨st3, h3⟩ := encodeLoop_usable h post hu3 (assignRecord st1.1 feat code, st1.2 ++ ws)
  refine ⟨st3.1, st3.2, ?_, ?_⟩
  · rw [encodeLoop_append, h1]
    simp only [encodeLoop, h2, h3]
  · rw [encodeLoop_other h post feat hpost _ _ h3]
    exact hl2

theorem getMember_of_usable (h : Host) (encInfo : JVal)
    (hu : usableEncoder h encInfo = true) :
    getMember h encInfo "mapping" = .ok (getProp h encInfo "mapping") := by
  cases encInfo <;> simp_all [getMember, usableEncoder, nullish]

theorem hasProperty_obj_false (h : Host) (s : String) (mapping : JObj)
    (hown : lookup s mapping = none) (hinh : s ∉ objectPrototypeKeys) :
    hasProperty h s (.obj mapping) = .ok false := by
  simp [hasProperty, hasOwn, hown, hinh]

/-- A value that is no key of the mapping, is no inherited name, and equals some key
when both are lowercased, takes the code of the first such key. -/
theorem encodeValue_caseInsensitive (h : Host) (feat : String) (encInfo : JVal)
    (mapping : JObj) (raw key : String) (code : JVal)
    (hu : usableEncoder h encInfo = true)
    (hmap : orElse (getProp h encInfo "mapping") (.obj []) = .obj mapping)
    (hown : lookup (strValueOf raw) mapping = none)
    (hinh : strValueOf raw ∉ objectPrototypeKeys)
    (hfind : (mapping.map Prod.fst).find?
      (fun k => h.toLowerCase k == h.toLowerCase (strValueOf raw)) = some key)
    (hkey : key ≠ "") (hcode : lookup key mapping = some code) :
    encodeValue h feat encInfo raw = .ok (code, []) := by
  unfold encodeValue
  rw [getMember_of_usable h encInfo hu]
  simp only [hmap, hasProperty_obj_false h _ mapping hown hinh, findCaseInsensitive,
    ownEntries, hfind, hkey, ne_eq, not_false_eq_true, if_true, getProp_obj, hcode,
    Option.getD_some]

/-- A value that is no key of the mapping, is no inherited name, and equals no key when
both are lowercased, takes the code of an unknown value, with a warning. -/
theorem encodeValue_unknown (h : Host) (feat : String) (encInfo : JVal)
    (mapping : JObj) (raw : String)
    (hu : usableEncoder h encInfo = true)
    (hmap : orElse (getProp h encInfo "mapping") (.obj []) = .obj mapping)
    (hown : lookup (strValueOf raw) mapping = none)
    (hinh : strValueOf raw ∉ objectPrototypeKeys)
    (hci : ∀ k ∈ mapping.map Prod.fst, h.toLowerCase k ≠ h.toLowerCase (strValueOf raw)) :
    encodeValue h feat encInfo raw =
      .ok (unknownIdx h (.obj mapping),
        [unknownWarning h feat (strValueOf raw) (unknownIdx h (.obj mapping))]) := by
  have hfind : (mapping.map Prod.fst).find?
      (fun k => h.toLowerCase k == h.toLowerCase (strValueOf raw)) = none := by
    rw [List.find?_eq_none]
    intro k hk
    simpa using hci k hk
  unfold encodeValue
  rw [getMember_of_usable h encInfo hu]
  simp only [hmap, hasProperty_obj_false h _ mapping hown hinh, findCaseInsensitive,
    ownEntries, hfind]

/-! ## The code of an unknown value -/

theorem unknownIdx_marked (h : Host) (mapping : JObj) (u : JVal)
    (hu : lookup "__UNKNOWN__" mapping = some u) (hn : nullish u = false) :
    unknownIdx h (.obj mapping) = u := by
  simp [unknownIdx, getProp_obj, hu, hn]

theorem unknownIdx_unmarked (h : Host) (mapping : JObj)
    (hu : lookup "__UNKNOWN__" mapping = none) :
    unknownIdx h (.obj mapping) =
      if 0 < mapping.length then
        .num ((mathMax ((mapping.map Prod.snd).map toNumber)).add (.fin 1))
      else .num (.fin 0) := by
  have hi : inheritedValue "__UNKNOWN__" = .undefined := rfl
  simp [unknownIdx, getProp_obj, hu, hi, nullish, ownEntries]

theorem foldl_max_fin (a : ℚ) (qs : List ℚ) :
    (qs.map JNum.fin).foldl JNum.max (.fin a) = .fin (qs.foldl max a) := by
  induction qs generalizing a with
  | nil => rfl
  | cons q qs ih =>
    have hstep : JNum.max (.fin a) (.fin q) = .fin (max a q) := by
      simp only [JNum.max]
      by_cases hlt : a < q
      · simp [hlt, max_eq_right (le_of_lt hlt)]
      · simp [hlt, max_eq_left (not_lt.1 hlt)]
    simp only [List.map_cons, List.foldl_cons, hstep, ih]

/-- Without an `__UNKNOWN__` key and with numbers for codes, the code of an unknown
value is the largest code plus one. -/
theorem unknownIdx_max (h : Host) (mapping : JObj) (q : ℚ) (qs : List ℚ)
    (hu : lookup "__UNKNOWN__" mapping = none)
    (hcodes : mapping.map Prod.snd = numbers (q :: qs)) :
    unknownIdx h (.obj mapping) = .num (.fin (qs.foldl max q + 1)) := by
  have hlen : 0 < mapping.length := by
    have := congrArg List.length hcodes
    simp only [List.length_map, numbers, List.length_cons] at this
    omega
  have hnum : (numbers (q :: qs)).map toNumber = (q :: qs).map JNum.fin := by
    simp [numbers, toNumber, Function.comp_def]
  rw [unknownIdx_unmarked h mapping hu, if_pos hlen, hcodes, hnum]
  simp only [mathMax, List.map_cons, List.foldl_cons]
  have hfirst : JNum.max (.inf true) (.fin q) = .fin q := rfl
  rw [hfirst, foldl_max_fin]
  rfl

/-! ## Collecting and scaling the features -/

theorem mapExcept_ok {α β : Type} (f : α → Except Thrown β) (g : α → β) (xs : List α)
    (hf : ∀ x ∈ xs, f x = .ok (g x)) : mapExcept f xs = .ok (xs.map g) := by
  induction xs with
  | nil => rfl
  | cons x xs ih =>
    simp only [mapExcept, hf x (List.mem_cons_self _ _),
      ih fun y hy => hf y (List.mem_cons_of_mem _ hy), List.map_cons]

theorem mapExcept_error {α β : Type} (f : α → Except Thrown β) (g : α → β)
    (pre : List α) (x : α) (post : List α) (e : Thrown)
    (hpre : ∀ y ∈ pre, f y = .ok (g y)) (hx : f x = .error e) :
    mapExcept f (pre ++ x :: post) = .error e := by
  induction pre with
  | nil => simp only [List.nil_append, mapExcept, hx]
  | cons y ys ih =>
    have hys := ih fun z hz => hpre z (List.mem_cons_of_mem _ hz)
    rw [List.cons_append, mapExcept, hpre y (List.mem_cons_self _ _)]
    simp only [hys]

theorem elems_strings (h : Host) (names : List String) :
    toStr.elems h (names.map JVal.str) = names := by
  induction names with
  | nil => rfl
  | cons n ns ih => simp [toStr.elems, toStr, ih]

theorem isNaN_eq_false (x : JNum) (hx : x ≠ .nan) : isNaN x = false := by
  cases x <;> simp_all [isNaN]

/-- The callback of `feature_order.map` on a feature the encoded record holds with a
value that parses. -/
theorem orderedFeature_present (h : Host) (names : List JVal) (encoded : JObj)
    (name : String) (v : JVal) (hv : lookup name encoded = some v)
    (hnum : parseFloat v ≠ .nan) :
    orderedFeature h names encoded (.str name) = .ok (parseFloat v) := by
  have hp : hasProperty h name (.obj encoded) = .ok true := by
    simp [hasProperty, hasOwn, hv]
  simp only [orderedFeature, orderedFeatureWith, toStr, hp, getProp_obj, hv,
    Option.getD_some, isNaN_eq_false _ hnum]
  rfl

theorem orderedElement_str (h : Host) (names : List JVal) (encoded : JObj) (name : String) :
    orderedElement h (.ok (joinWith h ", " names)) encoded (.str name) =
      orderedFeature h names encoded (.str name) := rfl

theorem length_arr (h : Host) (xs : List JVal) (extra : JObj) :
    optMember h (.arr xs extra) "length" = .num (.fin xs.length) := by
  simp [optMember, getProp, hiddenOwn, lookup]

theorem greaterThanZero_length (n : Nat) :
    greaterThanZero (.num (.fin n)) = decide (0 < n) := by
  simp [greaterThanZero, toNumber, JNum.positive]

theorem collectFeatures_ordered (h : Host) (cfg : JVal) (names : List String)
    (extra encoded : JObj)
    (horder : optMember h cfg "feature_order" = .arr (names.map JVal.str) extra)
    (hne : names ≠ [])
    (hvals : ∀ name ∈ names, ∃ v, lookup name encoded = some v ∧ parseFloat v ≠ .nan) :
    collectFeatures h cfg encoded =
      .ok (names.map fun name => parseFloat ((lookup name encoded).getD .undefined)) := by
  have hpos : 0 < names.length := List.length_pos.2 hne
  unfold collectFeatures
  simp only [horder, length_arr, greaterThanZero_length, List.length_map, hpos, decide_True,
    if_true]
  rw [mapExcept_ok _ (fun feat => parseFloat ((lookup (toStr h feat) encoded).getD .undefined))]
  · simp [List.map_map, Function.comp_def, toStr]
  · intro feat hfeat
    obtain ⟨name, hname, rfl⟩ := List.mem_map.1 hfeat
    obtain ⟨v, hv, hnum⟩ := hvals name hname
    rw [orderedElement_str, orderedFeature_present h _ encoded name v hv hnum]
    simp [toStr, hv]

theorem applyScaler_not_standard (h : Host) (cfg : JVal) (features : List JNum)
    (hno : optMember h (optMember h cfg "scaler") "type" ≠ .str "standard") :
    applyScaler h cfg features = features := by
  have hs : strictEqualsStr (optMember h (optMember h cfg "scaler") "type") "standard" =
      false := by
    cases ht : optMember h (optMember h cfg "scaler") "type" <;>
      simp_all [strictEqualsStr]
  simp [applyScaler, hs]

/-- The tensor built in the configured order when no standard scaler is configured. -/
theorem prepareInputTensor_ordered (h : Host) (cfg : JVal) (names : List String)
    (extra payload encoded : JObj) (warnings : List Event)
    (horder : optMember h cfg "feature_order" = .arr (names.map JVal.str) extra)
    (hne : names ≠ [])
    (hno : optMember h (optMember h cfg "scaler") "type" ≠ .str "standard")
    (henc : encodeCategoricalInputs h cfg payload = .ok (encoded, warnings))
    (hvals : ∀ name ∈ names, ∃ v, lookup name encoded = some v ∧ parseFloat v ≠ .nan) :
    prepareInputTensor h cfg payload =
      .ok ({ data := names.map fun name => parseFloat ((lookup name encoded).getD .undefined)
             dims := [1, names.length] }, warnings) := by
  unfold prepareInputTensor
  simp only [henc, collectFeatures_ordered h cfg names extra encoded horder hne hvals,
    applyScaler_not_standard h cfg _ hno, List.length_map]

theorem mapWithIndex_length {α β : Type} (f : α → Nat → β) (i : Nat) (xs : List α) :
    (mapWithIndex f i xs).length = xs.length := by
  induction xs generalizing i with
  | nil => rfl
  | cons x xs ih => simp [mapWithIndex, ih]

/-- Scaling every element, from index `k` on, against arrays of numbers. -/
theorem mapWithIndex_scale (h : Host) (ms ss : List ℚ) (pm ps : JObj) (vs : List ℚ)
    (k : Nat) (hm : (ms.drop k).length = vs.length) (hs : (ss.drop k).length = vs.length)
    (hnz : ∀ s ∈ ss, s ≠ 0) :
    mapWithIndex (scaleFeature h (.arr (numbers ms) pm) (.arr (numbers ss) ps)) k
        (vs.map JNum.fin) =
      List.zipWith3 (fun v m s => JNum.fin ((v - m) / s)) vs (ms.drop k) (ss.drop k) := by
  induction vs generalizing k with
  | nil => simp [mapWithIndex, List.zipWith3]
  | cons v vs ih =>
    have hkm : k < ms.length := by
      simp only [List.length_drop, List.length_cons] at hm; omega
    have hks : k < ss.length := by
      simp only [List.length_drop, List.length_cons] at hs; omega
    have hdm : ms.drop k = ms[k] :: ms.drop (k + 1) := List.drop_eq_getElem_cons hkm
    have hds : ss.drop k = ss[k] :: ss.drop (k + 1) := List.drop_eq_getElem_cons hks
    have hm' : (ms.drop (k + 1)).length = vs.length := by
      simp only [List.length_drop, List.length_cons] at hm ⊢; omega
    have hs' : (ss.drop (k + 1)).length = vs.length := by
      simp only [List.length_drop, List.length_cons] at hs ⊢; omega
    have hsk : ss[k] ≠ 0 := hnz _ (List.getElem_mem _)
    have hgm : getIndex h (.arr (numbers ms) pm) k = .num (.fin ms[k]) := by
      simp [getIndex, numbers, List.getD_eq_getElem?_getD, hkm]
    have hgs : getIndex h (.arr (numbers ss) ps) k = .num (.fin ss[k]) := by
      simp [getIndex, numbers, List.getD_eq_getElem?_getD, hks]
    rw [hdm, hds]
    simp only [List.map_cons, mapWithIndex, List.zipWith3, ih (k + 1) hm' hs']
    congr 1
    simp [scaleFeature, hgm, hgs, toNumber, JNum.sub, JNum.neg, JNum.add, JNum.div, hsk,
      sub_eq_add_neg]

theorem strictEqualsNat_length (h : Host) (xs : List JVal) (extra : JObj) (n : Nat) :
    strictEqualsNat (optMember h (.arr xs extra) "length") n = decide (xs.length = n) := by
  simp [length_arr, strictEqualsNat]

theorem strictEqualsNat_of_lengthDiffers (h : Host) (v : JVal) (n : Nat)
    (hd : lengthDiffers v n = true) : strictEqualsNat (optMember h v "length") n = false := by
  have hi : inheritedValue "length" = .undefined := rfl
  cases v with
  | arr xs extra =>
    rw [strictEqualsNat_length]
    simpa [lengthDiffers] using hd
  | str s =>
    have hl : optMember h (.str s) "length" = .num (.fin (utf16Length s)) := by
      simp [optMember, getProp, hiddenOwn, lookup]
    rw [hl]
    simpa [lengthDiffers, strictEqualsNat] using hd
  | obj ps =>
    have hl : optMember h (.obj ps) "length" = (lookup "length" ps).getD .undefined := by
      simp [optMember, getProp_obj, hi]
    rw [hl]
    simp only [lengthDiffers] at hd
    cases hlk : lookup "length" ps with
    | none => rfl
    | some w =>
      rw [hlk] at hd
      cases w with
      | num x =>
        cases x with
        | fin q => simpa [strictEqualsNat] using hd
        | _ => rfl
      | _ => rfl
  | undefined => rfl
  | null => rfl
  | bool b => simp [optMember, getProp, hiddenOwn, ownEntries, lookup, hi, strictEqualsNat]
  | num x => simp [optMember, getProp, hiddenOwn, ownEntries, lookup, hi, strictEqualsNat]
  | inherited name => simp [lengthDiffers] at hd
  | derived ps proto => simp [lengthDiffers] at hd
  | hole => simp [optMember, getProp, hiddenOwn, ownEntries, lookup, hi, strictEqualsNat]

/-- Standardization with a scaler of type "standard" whose arrays have the length of the
features. -/
theorem applyScaler_standard (h : Host) (cfg : JVal) (ms ss vs : List ℚ) (pm ps : JObj)
    (htype : optMember h (optMember h cfg "scaler") "type" = .str "standard")
    (hmean : getProp h (optMember h cfg "scaler") "mean" = .arr (numbers ms) pm)
    (hscale : getProp h (optMember h cfg "scaler") "scale" = .arr (numbers ss) ps)
    (hm : ms.length = vs.length) (hs : ss.length = vs.length) (hnz : ∀ s ∈ ss, s ≠ 0) :
    applyScaler h cfg (vs.map JNum.fin) =
      List.zipWith3 (fun v m s => JNum.fin ((v - m) / s)) vs ms ss := by
  have hlm : (numbers ms).length = vs.length := by simpa [numbers] using hm
  have hls : (numbers ss).length = vs.length := by simpa [numbers] using hs
  simp only [applyScaler, htype, strictEqualsStr, decide_True, if_true, hmean, hscale,
    strictEqualsNat_length, List.length_map, hlm, hls, Bool.and_self]
  simpa using mapWithIndex_scale h ms ss pm ps vs 0 (by simpa using hm) (by simpa using hs) hnz

/-- Standardization is skipped when `mean` or `scale` lacks the length of the
features. -/
theorem applyScaler_mismatch (h : Host) (cfg : JVal) (features : List JNum)
    (hmis : lengthDiffers (getProp h (optMember h cfg "scaler") "mean") features.length = true ∨
      lengthDiffers (getProp h (optMember h cfg "scaler") "scale") features.length = true) :
    applyScaler h cfg features = features := by
  unfold applyScaler
  rcases hmis with hd | hd
  · simp [strictEqualsNat_of_lengthDiffers h _ _ hd]
  · simp [strictEqualsNat_of_lengthDiffers h _ _ hd]

theorem applyScaler_length (h : Host) (cfg : JVal) (features : List JNum) :
    (applyScaler h cfg features).length = features.length := by
  unfold applyScaler
  dsimp only
  split
  · split
    · exact mapWithIndex_length _ _ _
    · rfl
  · rfl

/-! ## The encoder and the builder apart from inherited names

The three statements below hold for every name that `Object.prototype` does not give to
all objects.  For an inherited name the tests with `in` at lines 70 and 102 succeed
whatever the mapping or the record holds. -/

/-- A string value that, trimmed, is no key of the mapping, no inherited name, and equal
to no key when both are lowercased, is encoded to `unknownIdx` of the mapping. -/
theorem unknown_value_fallback (h : Host) (cfg : JVal) (encoders payload : JObj)
    (feat : String) (encInfo : JVal) (mapping : JObj) (raw : String)
    (hcfg : optMember h cfg "categorical_encoders" = .obj encoders)
    (hkeys : (encoders.map Prod.fst).Nodup)
    (husable : ∀ e ∈ encoders, usableEncoder h e.2 = true)
    (hfeat : (feat, encInfo) ∈ encoders)
    (hmap : orElse (getProp h encInfo "mapping") (.obj []) = .obj mapping)
    (hraw : lookup feat payload = some (.str raw))
    (hown : lookup (strValueOf raw) mapping = none)
    (hinh : strValueOf raw ∉ objectPrototypeKeys)
    (hci : ∀ k ∈ mapping.map Prod.fst, h.toLowerCase k ≠ h.toLowerCase (strValueOf raw)) :
    ∃ encoded warnings, encodeCategoricalInputs h cfg payload = .ok (encoded, warnings) ∧
      lookup feat encoded = some (unknownIdx h (.obj mapping)) :=
  encode_sets_feature h cfg encoders payload feat encInfo raw _ _ hcfg hkeys husable hfeat hraw
    (encodeValue_unknown h feat encInfo mapping raw (husable _ hfeat) hmap hown hinh hci)

/-- A string value that, trimmed, is no key of the mapping and no inherited name, and
equals some key when both are lowercased, is encoded to the code of the first such
key. -/
theorem case_insensitive_match (h : Host) (cfg : JVal) (encoders payload : JObj)
    (feat : String) (encInfo : JVal) (mapping : JObj) (raw key : String) (code : JVal)
    (hcfg : optMember h cfg "categorical_encoders" = .obj encoders)
    (hkeys : (encoders.map Prod.fst).Nodup)
    (husable : ∀ e ∈ encoders, usableEncoder h e.2 = true)
    (hfeat : (feat, encInfo) ∈ encoders)
    (hmap : orElse (getProp h encInfo "mapping") (.obj []) = .obj mapping)
    (hraw : lookup feat payload = some (.str raw))
    (hown : lookup (strValueOf raw) mapping = none)
    (hinh : strValueOf raw ∉ objectPrototypeKeys)
    (hfind : (mapping.map Prod.fst).find?
      (fun k => h.toLowerCase k == h.toLowerCase (strValueOf raw)) = some key)
    (hkey : key ≠ "") (hcode : lookup key mapping = some code) :
    ∃ encoded warnings, encodeCategoricalInputs h cfg payload = .ok (encoded, warnings) ∧
      lookup feat encoded = some code :=
  encode_sets_feature h cfg encoders payload feat encInfo raw _ _ hcfg hkeys husable hfeat hraw
    (encodeValue_caseInsensitive h feat encInfo mapping raw key code (husable _ hfeat) hmap
      hown hinh hfind hkey hcode)

/-- When the first feature of the order that the encoded record lacks is no inherited
name, and the features before it are present and numeric, `prepareInputTensor` throws
the error that names it and lists the feature order. -/
theorem missing_feature_error (h : Host) (cfg : JVal) (before after : List String)
    (name : String) (extra payload encoded : JObj) (warnings : List Event)
    (horder : optMember h cfg "feature_order" =
      .arr ((before ++ name :: after).map JVal.str) extra)
    (henc : encodeCategoricalInputs h cfg payload = .ok (encoded, warnings))
    (hbefore : ∀ n ∈ before, ∃ v, lookup n encoded = some v ∧ parseFloat v ≠ .nan)
    (hmiss : lookup name encoded = none)
    (hinh : name ∉ objectPrototypeKeys) :
    prepareInputTensor h cfg payload =
      .error (.error ("Missing feature '" ++ name ++ "'. Expected: " ++
        ", ".intercalate (before ++ name :: after)), warnings) := by
  have hlen : 0 < ((before ++ name :: after).map JVal.str).length := by simp
  have hjoin : joinWith h ", " ((before ++ name :: after).map JVal.str) =
      ", ".intercalate (before ++ name :: after) := by
    rw [joinWith, elems_strings]
  have hcollect : collectFeatures h cfg encoded =
      .error (.error ("Missing feature '" ++ name ++ "'. Expected: " ++
        ", ".intercalate (before ++ name :: after))) := by
    unfold collectFeatures
    simp only [horder, length_arr, greaterThanZero_length, hlen, decide_True, if_true]
    rw [List.map_append, List.map_cons]
    refine mapExcept_error _ (fun feat => parseFloat ((lookup (toStr h feat) encoded).getD
      .undefined)) _ _ _ _ ?_ ?_
    · intro feat hfeat
      obtain ⟨n, hn, rfl⟩ := List.mem_map.1 hfeat
      obtain ⟨v, hv, hnum⟩ := hbefore n hn
      rw [orderedElement_str, orderedFeature_present h _ encoded n v hv hnum]
      simp [toStr, hv]
    · rw [← List.map_cons, ← List.map_append]
      simp only [orderedElement, orderedFeatureWith, toStr,
        hasProperty_obj_false h name encoded hmiss hinh, hjoin]
  unfold prepareInputTensor
  simp only [henc, hcollect]

/-! ## Properties -/

/-- C1 (evaluation at the failing input).  Loading `untrimmedDoc` succeeds, and in the
loaded configuration the string value `scaler.type` still has its blanks: not every
string of the configuration is trimmed.  Only the keys and the elements of
`feature_order` are. -/
theorem C1_string_values_keep_their_blanks (h : Host) :
    (loadPreprocessorConfig h "model.json" (.parsed untrimmedDoc)).loaded = true ∧
    getProp h (getProp h (loadPreprocessorConfig h "model.json" (.parsed untrimmedDoc)).config
      "scaler") "type" = .str " standard " ∧
    jsTrim " standard " ≠ " standard " ∧
    allTrimmed (loadPreprocessorConfig h "model.json" (.parsed untrimmedDoc)).config = false := by
  refine ⟨rfl, rfl, by decide, rfl⟩

/-- C2 (counterexample).  A request that arrives while no session is loaded makes the
input handler send nothing downstream: the number of messages sent is not one. -/
theorem C2_no_session_sends_nothing :
    ¬ (sent (onInput sampleHost none defaultConfig "2026-01-01T00:00:00.000Z"
      [("x", .num (.fin 1))])).length = 1 := by
  decide

/-- C2 (amended).  With a session loaded, every request makes the input handler send
exactly one message downstream, a success payload with the prediction, the status
"success" and the timestamp, or an error payload with the message and the status
"error".  With no session loaded it sends nothing and only reports the error
"ONNX session not ready.". -/
theorem C2_one_message_when_session_loaded (h : Host) (cfg : JVal) (timestamp : String)
    (payload : JObj) :
    (∀ s : Session,
      (∃ prediction, sent (onInput h (some s) cfg timestamp payload) =
        [successPayload prediction timestamp]) ∨
      (∃ message, sent (onInput h (some s) cfg timestamp payload) = [errorPayload message])) ∧
    onInput h none cfg timestamp payload = [Event.error "ONNX session not ready."] ∧
    sent (onInput h none cfg timestamp payload) = [] := by
  refine ⟨fun s => ?_, rfl, rfl⟩
  have hw := infer_warnings h s cfg payload
  unfold onInput
  cases hi : infer h s cfg payload with
  | error t =>
    obtain ⟨t, ws⟩ := t
    rw [hi] at hw
    right
    refine ⟨t.message h, ?_⟩
    simp [hi, sent, sent_append, sent_warnings ws (by simpa [reports] using hw)]
  | ok r =>
    obtain ⟨prediction, ws⟩ := r
    rw [hi] at hw
    left
    refine ⟨prediction, ?_⟩
    simp [hi, sent, sent_append, sent_warnings ws (by simpa [reports] using hw)]

/-- C3 (evaluation at the failing input).  The engine returns a "label" output whose
first element is 0 and declares the output "probabilities" first.  The handler does
not report the label: 0 is falsy for the `||` of line 168, so the prediction is taken
from "probabilities" and 0.9 is rounded to 1. -/
theorem C3_label_zero_is_passed_over (h : Host) (timestamp : String) :
    firstDatum h (getProp h (.obj labelZeroResults) "label") = .ok (.num (.fin 0)) ∧
    rawPrediction h labelZeroSession.outputNames labelZeroResults =
      .ok (.num (.fin (9 / 10))) ∧
    sent (onInput h (some labelZeroSession) defaultConfig timestamp [("x", .num (.fin 1))]) =
      [successPayload (.num (.fin 1)) timestamp] := by
  have h1 : isInteger (.fin (9 / 10)) = false := by
    simp only [isInteger]
    norm_num
  have h2 : ⌊(9 / 10 : ℚ) + 1 / 2⌋ = 1 := by
    norm_num [Int.floor_eq_iff]
  have h3 : roundPrediction (.num (.fin (9 / 10))) = .num (.fin 1) := by
    simp only [roundPrediction, h1, mathRound, h2]
    simp
  have h4 : infer h labelZeroSession defaultConfig [("x", .num (.fin 1))] =
      .ok (roundPrediction (.num (.fin (9 / 10))), []) := rfl
  refine ⟨rfl, rfl, ?_⟩
  simp only [onInput, h4, h3]
  rfl

/-- C4 (evaluation at the failing input).  The value "constructor" matches no key of
`jobMapping`, exactly or without regard to case, and the mapping has no `__UNKNOWN__`
key, so the fallback code would be 2.  The `in` test of line 70 finds the name every
object inherits, and the feature is set to the inherited function instead. -/
theorem C4_inherited_name_taken_for_a_key (h : Host) :
    lookup "constructor" jobMapping = none ∧
    findCaseInsensitive sampleHost (sampleHost.toLowerCase "constructor") (.obj jobMapping) =
      none ∧
    unknownIdx h (.obj jobMapping) = .num (.fin 2) ∧
    encodeCategoricalInputs h (jobConfig jobMapping) [("job", .str "constructor")] =
      .ok ([("job", .inherited "constructor")], []) := by
  refine ⟨rfl, rfl, ?_, rfl⟩
  simp [unknownIdx, getProp, lookup, hiddenOwn, ownEntries, jobMapping, inheritedValue,
    objectPrototypeKeys, nullish, mathMax, toNumber, JNum.max, JNum.add]
  norm_num

/-- C5.  Let `feat` be configured in `categorical_encoders` with the mapping `mapping`,
let the record hold a string under `feat`, and let `s` be that string trimmed, or
"MISSING" when nothing is left.  If `s` is a key of the mapping, the encoded record
holds the code of `s` under `feat`, whatever other keys the mapping has.  And a value of
blanks only is encoded exactly as the value "MISSING" is. -/
theorem C5_exact_match_wins (h : Host) (cfg : JVal) (encoders payload : JObj)
    (feat : String) (encInfo : JVal) (mapping : JObj) (raw : String) (code : JVal)
    (hcfg : optMember h cfg "categorical_encoders" = .obj encoders)
    (hkeys : (encoders.map Prod.fst).Nodup)
    (husable : ∀ e ∈ encoders, usableEncoder h e.2 = true)
    (hfeat : (feat, encInfo) ∈ encoders)
    (hmap : getProp h encInfo "mapping" = .obj mapping)
    (hraw : lookup feat payload = some (.str raw))
    (hkey : lookup (strValueOf raw) mapping = some code) :
    (∃ encoded warnings, encodeCategoricalInputs h cfg payload = .ok (encoded, warnings) ∧
      lookup feat encoded = some code) ∧
    (∀ blank, jsTrim blank = "" →
      encodeValue h feat encInfo blank = encodeValue h feat encInfo "MISSING") := by
  constructor
  · exact encode_sets_feature h cfg encoders payload feat encInfo raw code [] hcfg hkeys
      husable hfeat hraw
      (encodeValue_exact h feat encInfo mapping raw code (husable _ hfeat) hmap hkey)
  · intro blank hb
    simp only [encodeValue, strValueOf_blank blank hb, strValueOf_missing]

/-- C5 (witness).  The value " red " under the mapping `{"RED": 0, "red": 1}`: the key
"red" itself has the code 1, and the key "RED", equal to it but for the case, does not
count. -/
theorem C5_exact_match_wins_witness :
    (∃ encoded warnings, encodeCategoricalInputs sampleHost (jobConfig caseMapping)
        [("age", .num (.fin 40)), ("job", .str " red ")] = .ok (encoded, warnings) ∧
      lookup "job" encoded = some (.num (.fin 1))) ∧
    (∀ blank, jsTrim blank = "" →
      encodeValue sampleHost "job" (.obj [("mapping", .obj caseMapping)]) blank =
        encodeValue sampleHost "job" (.obj [("mapping", .obj caseMapping)]) "MISSING") :=
  C5_exact_match_wins sampleHost (jobConfig caseMapping)
    [("job", .obj [("mapping", .obj caseMapping)])]
    [("age", .num (.fin 40)), ("job", .str " red ")] "job"
    (.obj [("mapping", .obj caseMapping)]) caseMapping " red " (.num (.fin 1))
    rfl (by decide) (by decide) (List.mem_cons_self _ _) rfl rfl rfl

/-- C6 (evaluation at the failing input).  The value "constructor" is not a key of
`capitalMapping` and equals its first key "Constructor" when both are lowercased, whose
code is 0.  The `in` test of line 70 finds the inherited name first, and the feature is
set to the inherited function, not to 0. -/
theorem C6_inherited_name_hides_case_match (h : Host) :
    lookup "constructor" capitalMapping = none ∧
    findCaseInsensitive sampleHost (sampleHost.toLowerCase "constructor") (.obj capitalMapping) =
      some "Constructor" ∧
    lookup "Constructor" capitalMapping = some (.num (.fin 0)) ∧
    encodeCategoricalInputs h (jobConfig capitalMapping) [("job", .str "constructor")] =
      .ok ([("job", .inherited "constructor")], []) := by
  refine ⟨rfl, rfl, rfl, rfl⟩

/-- C7.  Let the configuration have the non-empty feature order `names` and no scaler
of type "standard", and let every feature of `names` be present in the encoded record
with a value that `parseFloat` reads.  Then `prepareInputTensor` returns the tensor of
shape `[1, |names|]` whose element `i` is the number read from the value of `names[i]`.
Any record whose encoding holds the same values under these names gives the same
tensor: other entries and the order of the keys do not count. -/
theorem C7_tensor_follows_feature_order (h : Host) (cfg : JVal) (names : List String)
    (extra payload encoded : JObj) (warnings : List Event)
    (horder : optMember h cfg "feature_order" = .arr (names.map JVal.str) extra)
    (hne : names ≠ [])
    (hno : optMember h (optMember h cfg "scaler") "type" ≠ .str "standard")
    (henc : encodeCategoricalInputs h cfg payload = .ok (encoded, warnings))
    (hvals : ∀ name ∈ names, ∃ v, lookup name encoded = some v ∧ parseFloat v ≠ .nan) :
    prepareInputTensor h cfg payload =
      .ok ({ data := names.map fun name => parseFloat ((lookup name encoded).getD .undefined)
             dims := [1, names.length] }, warnings) ∧
    ∀ (payload' encoded' : JObj) (warnings' : List Event),
      encodeCategoricalInputs h cfg payload' = .ok (encoded', warnings') →
      (∀ name ∈ names, lookup name encoded' = lookup name encoded) →
      prepareInputTensor h cfg payload' =
        .ok ({ data := names.map fun name =>
                 parseFloat ((lookup name encoded).getD .undefined)
               dims := [1, names.length] }, warnings') := by
  refine ⟨prepareInputTensor_ordered h cfg names extra payload encoded warnings horder hne hno
    henc hvals, ?_⟩
  intro payload' encoded' warnings' henc' hsame
  have hvals' : ∀ name ∈ names,
      ∃ v, lookup name encoded' = some v ∧ parseFloat v ≠ .nan :=
    fun name hname => by rw [hsame name hname]; exact hvals name hname
  rw [prepareInputTensor_ordered h cfg names extra payload' encoded' warnings' horder hne hno
    henc' hvals']
  have hdata : (names.map fun name => parseFloat ((lookup name encoded').getD .undefined)) =
      names.map fun name => parseFloat ((lookup name encoded).getD .undefined) :=
    List.map_congr_left fun name hname => by rw [hsame name hname]
  rw [hdata]

/-- C7 (witness).  Under `orderConfig` the record `{z: 9, y: "4", x: "3"}` gives the
tensor of "x" and "y" in that order. -/
theorem C7_tensor_follows_feature_order_witness :
    prepareInputTensor sampleHost orderConfig
        [("z", .num (.fin 9)), ("y", .str "4"), ("x", .str "3")] =
      .ok ({ data := [.fin 3, .fin 4], dims := [1, 2] }, []) :=
  (C7_tensor_follows_feature_order sampleHost orderConfig ["x", "y"] []
    [("z", .num (.fin 9)), ("y", .str "4"), ("x", .str "3")]
    [("z", .num (.fin 9)), ("y", .str "4"), ("x", .str "3")] []
    rfl (by decide) (by simp [optMember, orderConfig, getProp, lookup, hiddenOwn, ownEntries])
    rfl (by decide)).1

/-- C8 (evaluation at the failing input).  The record lacks the feature "constructor",
the first of the feature order.  The `in` test of line 102 finds the inherited name, so
the error is not the one for a missing feature: it is the one for a value that is not
numeric, and it does not list the feature order. -/
theorem C8_missing_feature_with_inherited_name (h : Host) :
    lookup "constructor" [("grid", JVal.num (.fin 3))] = none ∧
    prepareInputTensor h gridConfig [("grid", .num (.fin 3))] =
      .error (.error ("Non-numeric after encoding: constructor='" ++
        h.functionToString "constructor" ++ "'"), []) ∧
    "Non-numeric after encoding: constructor='" ++
        sampleHost.functionToString "constructor" ++ "'" ≠
      "Missing feature 'constructor'. Expected: constructor, grid" := by
  refine ⟨rfl, rfl, by decide⟩

/-- C9.  Let the scaler be of type "standard" with arrays of numbers `mean` and `scale`
of the length of the feature vector `v`, no entry of `scale` being zero.  Then
`prepareInputTensor` returns the tensor whose element `i` is
`(v[i] - mean[i]) / scale[i]`, computed in the rationals. -/
theorem C9_standardization_is_exact (h : Host) (cfg : JVal) (mean scale v : List ℚ)
    (pm ps payload encoded : JObj) (warnings : List Event)
    (htype : optMember h (optMember h cfg "scaler") "type" = .str "standard")
    (hmean : getProp h (optMember h cfg "scaler") "mean" = .arr (numbers mean) pm)
    (hscale : getProp h (optMember h cfg "scaler") "scale" = .arr (numbers scale) ps)
    (hm : mean.length = v.length) (hs : scale.length = v.length)
    (hnz : ∀ s ∈ scale, s ≠ 0)
    (henc : encodeCategoricalInputs h cfg payload = .ok (encoded, warnings))
    (hfeat : collectFeatures h cfg encoded = .ok (v.map JNum.fin)) :
    prepareInputTensor h cfg payload =
      .ok ({ data := List.zipWith3 (fun x m s => JNum.fin ((x - m) / s)) v mean scale
             dims := [1, v.length] }, warnings) := by
  have hlen := applyScaler_length h cfg (v.map JNum.fin)
  rw [applyScaler_standard h cfg mean scale v pm ps htype hmean hscale hm hs hnz] at hlen
  unfold prepareInputTensor
  simp only [henc, hfeat,
    applyScaler_standard h cfg mean scale v pm ps htype hmean hscale hm hs hnz, hlen,
    List.length_map]

/-- C9 (witness).  The features 10 and 20 with mean `[5, 5]` and scale `[5, 5]` give
the tensor `[1, 3]`. -/
theorem C9_standardization_is_exact_witness :
    prepareInputTensor sampleHost (scaleConfig [5, 5] [5, 5])
        [("a", .num (.fin 10)), ("b", .num (.fin 20))] =
      .ok ({ data := [.fin 1, .fin 3], dims := [1, 2] }, []) := by
  have key := C9_standardization_is_exact sampleHost (scaleConfig [5, 5] [5, 5]) [5, 5] [5, 5]
    [10, 20] [] [] [("a", .num (.fin 10)), ("b", .num (.fin 20))]
    [("a", .num (.fin 10)), ("b", .num (.fin 20))] [] rfl rfl rfl rfl rfl
    (by intro s hs; simp at hs; subst hs; norm_num) rfl rfl
  rw [key]
  norm_num [List.zipWith3]

/-- C10.  Let `mean` or `scale` of the scaler, of type "standard" or of any other, lack
the length of the feature vector: a missing member, an array of another length, or any
other value without that length.  Then `prepareInputTensor` does not fail and returns
the vector as it is.  And for every configuration and vector, standardization returns
the vector itself or the vector with every element scaled, never a part of each. -/
theorem C10_standardization_is_all_or_nothing (h : Host) (cfg : JVal)
    (features : List JNum) (payload encoded : JObj) (warnings : List Event)
    (hmis : lengthDiffers (getProp h (optMember h cfg "scaler") "mean") features.length = true ∨
      lengthDiffers (getProp h (optMember h cfg "scaler") "scale") features.length = true)
    (henc : encodeCategoricalInputs h cfg payload = .ok (encoded, warnings))
    (hfeat : collectFeatures h cfg encoded = .ok features) :
    prepareInputTensor h cfg payload =
      .ok ({ data := features, dims := [1, features.length] }, warnings) ∧
    ∀ (cfg' : JVal) (fs : List JNum),
      applyScaler h cfg' fs = fs ∨
      applyScaler h cfg' fs =
        mapWithIndex (scaleFeature h (getProp h (optMember h cfg' "scaler") "mean")
          (getProp h (optMember h cfg' "scaler") "scale")) 0 fs := by
  constructor
  · unfold prepareInputTensor
    simp only [henc, hfeat, applyScaler_mismatch h cfg features hmis]
  · intro cfg' fs
    unfold applyScaler
    dsimp only
    split
    · split
      · exact Or.inr rfl
      · exact Or.inl rfl
    · exact Or.inl rfl

/-- C10 (witness).  The features 10 and 20 with a mean of one entry only stay 10 and
20. -/
theorem C10_standardization_is_all_or_nothing_witness :
    prepareInputTensor sampleHost (scaleConfig [5] [5, 5])
        [("a", .num (.fin 10)), ("b", .num (.fin 20))] =
      .ok ({ data := [.fin 10, .fin 20], dims := [1, 2] }, []) :=
  (C10_standardization_is_all_or_nothing sampleHost (scaleConfig [5] [5, 5])
    [.fin 10, .fin 20] [("a", .num (.fin 10)), ("b", .num (.fin 20))]
    [("a", .num (.fin 10)), ("b", .num (.fin 20))] [] (Or.inl rfl) rfl rfl).1

/-! ## Loading: the fallback -/

theorem loadFallback_config (attempt : Event) (warning : Option String) :
    (loadFallback attempt warning).config = defaultConfig ∧
    (loadFallback attempt warning).loaded = false := ⟨rfl, rfl⟩

theorem loadFallback_warnings (text : String) (warning : Option String) :
    warnings (loadFallback (Event.log text) warning).events =
      warning.toList.map fun m => "Preprocessor config warning: " ++ m := by
  cases warning <;> rfl

/-- C11.  Whatever goes wrong while the configuration is read, `loadPreprocessorConfig`
completes with the value `false` and leaves the default configuration, whose
`feature_order` and `categorical_features` are empty, whose `categorical_encoders` is
the empty object and whose `scaler` is `null`: when `fs.readFile` fails (with a warning
unless the code of the failure is `ENOENT`), when `JSON.parse` fails (with a warning),
and when the normalization throws (with a warning). -/
theorem C11_load_failure_leaves_default (h : Host) (path : String) :
    defaultConfig = .obj [("feature_order", .arr [] []), ("categorical_features", .arr [] []),
      ("categorical_encoders", .obj []), ("scaler", .null)] ∧
    (∀ code message,
      (loadPreprocessorConfig h path (.readError code message)).config = defaultConfig ∧
      (loadPreprocessorConfig h path (.readError code message)).loaded = false ∧
      (warnings (loadPreprocessorConfig h path (.readError code message)).events ≠ [] ↔
        code ≠ "ENOENT")) ∧
    (∀ message,
      (loadPreprocessorConfig h path (.syntaxError message)).config = defaultConfig ∧
      (loadPreprocessorConfig h path (.syntaxError message)).loaded = false ∧
      warnings (loadPreprocessorConfig h path (.syntaxError message)).events ≠ []) ∧
    (∀ doc e, normalizeConfig h doc = .error e →
      (loadPreprocessorConfig h path (.parsed doc)).config = defaultConfig ∧
      (loadPreprocessorConfig h path (.parsed doc)).loaded = false ∧
      warnings (loadPreprocessorConfig h path (.parsed doc)).events ≠ []) := by
  refine ⟨rfl, ?_, ?_, ?_⟩
  · intro code message
    refine ⟨rfl, rfl, ?_⟩
    simp only [loadPreprocessorConfig, loadFallback_warnings]
    by_cases hc : code = "ENOENT" <;> simp [hc]
  · intro message
    refine ⟨rfl, rfl, ?_⟩
    simp [loadPreprocessorConfig, loadFallback_warnings]
  · intro doc e he
    simp only [loadPreprocessorConfig, he]
    refine ⟨rfl, rfl, ?_⟩
    simp [loadFallback_warnings]

/-- C11 (witness).  The document `null` parses, the normalization throws on it, and the
default configuration is left, with a warning. -/
theorem C11_load_failure_leaves_default_witness :
    (loadPreprocessorConfig sampleHost "model.json" (.parsed .null)).config = defaultConfig ∧
    (loadPreprocessorConfig sampleHost "model.json" (.parsed .null)).loaded = false ∧
    warnings (loadPreprocessorConfig sampleHost "model.json" (.parsed .null)).events ≠ [] :=
  (C11_load_failure_leaves_default sampleHost "model.json").2.2.2 .null
    (.typeError "read feature_order of null") rfl

/-! ## The default configuration -/

theorem encodeCategoricalInputs_default (h : Host) (payload : JObj) :
    encodeCategoricalInputs h defaultConfig payload = .ok (payload, []) := rfl

theorem plainFeature_numeric (h : Host) (v : JVal) (hv : parseFloat v ≠ .nan) :
    plainFeature h v = .ok (parseFloat v) := by
  simp [plainFeature, isNaN_eq_false _ hv]

theorem plainFeature_other (h : Host) (v : JVal) (hv : parseFloat v = .nan) :
    plainFeature h v =
      .error (.error ("Non-numeric input: " ++ toStr h v ++
        " (no preprocessor config loaded)")) := by
  simp [plainFeature, hv, isNaN]

theorem collectFeatures_default (h : Host) (encoded : JObj) :
    collectFeatures h defaultConfig encoded =
      mapExcept (plainFeature h) (encoded.map Prod.snd) := by
  have hlen : optMember h (optMember h defaultConfig "feature_order") "length" =
      .num (.fin ((([] : List JVal).length : ℕ) : ℚ)) := rfl
  simp only [collectFeatures, hlen, greaterThanZero_length]
  rfl

theorem applyScaler_default (h : Host) (features : List JNum) :
    applyScaler h defaultConfig features = features :=
  applyScaler_not_standard h defaultConfig features (by
    have ht : optMember h (optMember h defaultConfig "scaler") "type" = .undefined := rfl
    rw [ht]
    exact fun hc => JVal.noConfusion hc)

/-- C15.  Under the default configuration a record whose values all parse gives the
tensor of the parsed values in the order of its entries, of shape `[1, n]` for `n`
entries, with no warning.  If some value does not parse, `prepareInputTensor` throws
the error "Non-numeric input" for the first such value. -/
theorem C15_default_config_follows_record (h : Host) (payload : JObj) :
    ((∀ entry ∈ payload, parseFloat entry.2 ≠ .nan) →
      prepareInputTensor h defaultConfig payload =
        .ok ({ data := payload.map fun entry => parseFloat entry.2
               dims := [1, payload.length] }, [])) ∧
    (∀ (before : JObj) (k : String) (v : JVal) (after : JObj),
      payload = before ++ (k, v) :: after →
      (∀ entry ∈ before, parseFloat entry.2 ≠ .nan) → parseFloat v = .nan →
      prepareInputTensor h defaultConfig payload =
        .error (.error ("Non-numeric input: " ++ toStr h v ++
          " (no preprocessor config loaded)"), [])) := by
  constructor
  · intro hall
    have hc : collectFeatures h defaultConfig payload =
        .ok (payload.map fun entry => parseFloat entry.2) := by
      rw [collectFeatures_default, mapExcept_ok (plainFeature h) parseFloat]
      · simp [List.map_map, Function.comp_def]
      · intro v hv
        obtain ⟨entry, hentry, rfl⟩ := List.mem_map.1 hv
        exact plainFeature_numeric h _ (hall entry hentry)
    simp only [prepareInputTensor, encodeCategoricalInputs_default, hc, applyScaler_default,
      List.length_map]
  · intro before k v after hsplit hbefore hv
    have hc : collectFeatures h defaultConfig payload =
        .error (.error ("Non-numeric input: " ++ toStr h v ++
          " (no preprocessor config loaded)")) := by
      rw [collectFeatures_default, hsplit, List.map_append, List.map_cons]
      refine mapExcept_error (plainFeature h) parseFloat _ _ _ _ ?_ (plainFeature_other h v hv)
      intro w hw
      obtain ⟨entry, hentry, rfl⟩ := List.mem_map.1 hw
      exact plainFeature_numeric h _ (hbefore entry hentry)
    simp only [prepareInputTensor, encodeCategoricalInputs_default, hc]

/-- C15 (witness).  The record `{a: "3", b: "4"}` gives the tensor `[3, 4]`. -/
theorem C15_default_config_follows_record_witness :
    prepareInputTensor sampleHost defaultConfig [("a", .str "3"), ("b", .str "4")] =
      .ok ({ data := [.fin 3, .fin 4], dims := [1, 2] }, []) :=
  (C15_default_config_follows_record sampleHost [("a", .str "3"), ("b", .str "4")]).1
    (by decide)

/-! ## Rounding the prediction -/

theorem roundPrediction_integer (q : ℚ) :
    ∃ z : ℤ, roundPrediction (.num (.fin q)) = .num (.fin z) ∧
      (q.den = 1 → (z : ℚ) = q) ∧ |(z : ℚ) - q| ≤ 1 / 2 := by
  by_cases hd : q.den = 1
  · refine ⟨q.num, ?_, fun _ => Rat.coe_int_num_of_den_eq_one hd, ?_⟩
    · simp [roundPrediction, isInteger, hd, Rat.coe_int_num_of_den_eq_one hd]
    · rw [Rat.coe_int_num_of_den_eq_one hd]; norm_num
  · refine ⟨⌊q + 1 / 2⌋, ?_, fun hc => absurd hc hd, ?_⟩
    · simp [roundPrediction, isInteger, hd, mathRound]
    · have h1 : ((⌊q + 1 / 2⌋ : ℤ) : ℚ) ≤ q + 1 / 2 := Int.floor_le _
      have h2 : q + 1 / 2 < ((⌊q + 1 / 2⌋ : ℤ) : ℚ) + 1 := Int.lt_floor_add_one _
      rw [abs_le]
      constructor <;> linarith

/-- C16 (counterexample).  The engine outputs `Infinity` and `NaN` are numbers, and the
handler sends them as the prediction as they are: the prediction is not an integer. -/
theorem C16_infinite_output_is_not_rounded :
    sent (onInput sampleHost (some (numberSession (.inf false))) defaultConfig "t"
      [("x", .num (.fin 1))]) = [successPayload (.num (.inf false)) "t"] ∧
    sent (onInput sampleHost (some (numberSession .nan)) defaultConfig "t"
      [("x", .num (.fin 1))]) = [successPayload (.num .nan) "t"] ∧
    isInteger (.inf false) = false ∧ isInteger .nan = false :=
  ⟨rfl, rfl, rfl, rfl⟩

/-- C16 (amended).  When the value read from the engine's outputs at line 168 is a
finite number `p`, the handler sends a success payload whose prediction is an integer
`z`: `z` is `p` when `p` is an integer, and in any case `z` is within one half of `p`.
An output that is `NaN` or infinite is sent as it is. -/
theorem C16_prediction_is_nearest_integer (h : Host) (session : Session) (cfg : JVal)
    (timestamp : String) (payload : JObj) (tensor : Tensor) (ws : List Event)
    (results : JObj) (p : ℚ)
    (hprep : prepareInputTensor h cfg payload = .ok (tensor, ws))
    (hrun : session.run [(firstName session.inputNames, tensor)] = .ok results)
    (hraw : rawPrediction h session.outputNames results = .ok (.num (.fin p))) :
    (∃ z : ℤ,
      sent (onInput h (some session) cfg timestamp payload) =
        [successPayload (.num (.fin z)) timestamp] ∧
      (p.den = 1 → (z : ℚ) = p) ∧ |(z : ℚ) - p| ≤ 1 / 2) ∧
    roundPrediction (.num .nan) = .num .nan ∧
    ∀ negative, roundPrediction (.num (.inf negative)) = .num (.inf negative) := by
  obtain ⟨z, hz, hint, hnear⟩ := roundPrediction_integer p
  refine ⟨⟨z, ?_, hint, hnear⟩, rfl, fun _ => rfl⟩
  have hw := prepareInputTensor_warnings h cfg payload
  rw [hprep] at hw
  have hi : infer h session cfg payload = .ok (.num (.fin z), ws) := by
    simp only [infer, hprep, hrun, hraw, hz]
  simp [onInput, hi, sent, sent_append, sent_warnings ws (by simpa [reports] using hw)]

/-- C16 (witness).  The engine output 2.6 is sent as the prediction 3. -/
theorem C16_prediction_is_nearest_integer_witness :
    sent (onInput sampleHost (some fractionSession) defaultConfig "t" [("x", .num (.fin 1))]) =
      [successPayload (.num (.fin 3)) "t"] := by
  obtain ⟨⟨z, hsent, -, hnear⟩, -, -⟩ :=
    C16_prediction_is_nearest_integer sampleHost fractionSession defaultConfig "t"
      [("x", .num (.fin 1))] { data := [.fin 1], dims := [1, 1] } []
      [("label", .obj [("data", .arr [.num (.fin (13 / 5))] [])])] (13 / 5) rfl rfl
      (by simp [rawPrediction, firstDatum, getProp, lookup, hiddenOwn, ownEntries, nullish,
        getIndex, truthy, fractionSession])
  rw [abs_le] at hnear
  have hlo : (2 : ℚ) < z := by linarith [hnear.1]
  have hhi : (z : ℚ) < 4 := by linarith [hnear.2]
  have hlo' : (2 : ℤ) < z := by exact_mod_cast hlo
  have hhi' : z < (4 : ℤ) := by exact_mod_cast hhi
  have hz : z = 3 := by omega
  subst hz
  simpa using hsent

/-! ## The location of the configuration -/

theorem replaceOnnxSuffix_onnx (stem : String) :
    replaceOnnxSuffix (stem ++ ".onnx") = stem ++ ".json" := by
  have hs : ".onnx".data.isSuffixOf (stem ++ ".onnx").data = true := by
    rw [List.isSuffixOf_iff_suffix, String.data_append]
    exact List.suffix_append _ _
  have hlen : (stem ++ ".onnx").data.length - 5 = stem.data.length := by
    rw [String.data_append, List.length_append]
    have : ".onnx".data.length = 5 := rfl
    omega
  rw [replaceOnnxSuffix, if_pos hs, hlen, String.data_append, List.take_left']
  · rfl
  · rfl

/-- C17 (counterexample).  For the model path "/models/iris.ort" and no explicit
preprocessor path, the location of the configuration is the model file itself, and it
does not end in ".json". -/
theorem C17_other_extension_is_kept :
    configPath (fun p => p) "/models/iris.ort" none =
      modelPath (fun p => p) "/models/iris.ort" ∧
    ".json".data.isSuffixOf (configPath (fun p => p) "/models/iris.ort" none).data = false := by
  decide

/-- C17 (amended).  With an explicit preprocessor path that is not empty, the location
of the configuration is that path, resolved.  Otherwise, when the resolved model path
ends in ".onnx", it is the model path with ".onnx" replaced by ".json"; and when the
resolved model path does not end in ".onnx", it is the model path itself. -/
theorem C17_config_path_replaces_onnx_suffix (resolve : String → String)
    (onnxPath : String) :
    (∀ p, p ≠ "" → configPath resolve onnxPath (some p) = resolve p) ∧
    (∀ stem, modelPath resolve onnxPath = stem ++ ".onnx" →
      configPath resolve onnxPath none = stem ++ ".json" ∧
      configPath resolve onnxPath (some "") = stem ++ ".json") ∧
    (".onnx".data.isSuffixOf (modelPath resolve onnxPath).data = false →
      configPath resolve onnxPath none = modelPath resolve onnxPath ∧
      configPath resolve onnxPath (some "") = modelPath resolve onnxPath) := by
  refine ⟨?_, ?_, ?_⟩
  · intro p hp
    simp [configPath, hp]
  · intro stem hstem
    simp [configPath, hstem, replaceOnnxSuffix_onnx]
  · intro hno
    simp [configPath, replaceOnnxSuffix, hno]

/-- C17 (witness).  The model path "/models/iris.onnx" gives the configuration path
"/models/iris.json". -/
theorem C17_config_path_replaces_onnx_suffix_witness :
    configPath (fun p => p) "/models/iris.onnx" none = "/models/iris.json" ∧
    configPath (fun p => p) "/models/iris.onnx" (some "") = "/models/iris.json" :=
  (C17_config_path_replaces_onnx_suffix (fun p => p) "/models/iris.onnx").2.1
    "/models/iris" rfl

/-! ## The unknown value: where its code comes from -/

theorem orElse_obj (m : JObj) (b : JVal) : orElse (.obj m) b = .obj m := rfl

/-- C14 (counterexample).  With `__UNKNOWN__: 99` beside the mapping `{"a": 0, "b": 1}`,
the value "zzz" is encoded to 2, not to 99. -/
theorem C14_unknown_beside_mapping_is_ignored :
    encodedFeature sampleHost unknownBesideConfig [("color", .str "zzz")] "color" =
      some (.num (.fin 2)) ∧
    encodedFeature sampleHost unknownBesideConfig [("color", .str "zzz")] "color" ≠
      some (.num (.fin 99)) := by
  have henc : encodeCategoricalInputs sampleHost unknownBesideConfig [("color", .str "zzz")] =
      .ok ([("color", unknownIdx sampleHost (.obj abMapping))],
        [unknownWarning sampleHost "color" "zzz" (unknownIdx sampleHost (.obj abMapping))]) :=
    rfl
  have hidx : unknownIdx sampleHost (.obj abMapping) = .num (.fin 2) := by
    rw [unknownIdx_max sampleHost abMapping 0 [1] rfl rfl]
    norm_num
  have hval : encodedFeature sampleHost unknownBesideConfig [("color", .str "zzz")] "color" =
      some (.num (.fin 2)) := by
    simp [encodedFeature, henc, hidx, lookup]
  refine ⟨hval, ?_⟩
  rw [hval]
  simp

/-- C14 (amended).  The code of an unknown value is read from the mapping, not from the
encoder specification beside it.  Let `feat` be configured with the mapping `mapping`,
and let a string value of the record, trimmed, be no key of the mapping, no name every
object inherits, and equal to no key when both are lowercased.  Then it is encoded to
`unknownIdx` of the mapping: the value under the key `__UNKNOWN__` of the mapping when
there is one that is not `null`, and without that key the largest code plus one. -/
theorem C14_unknown_code_is_read_from_mapping (h : Host) (cfg : JVal)
    (encoders payload : JObj) (feat : String) (encInfo : JVal) (mapping : JObj)
    (raw : String)
    (hcfg : optMember h cfg "categorical_encoders" = .obj encoders)
    (hkeys : (encoders.map Prod.fst).Nodup)
    (husable : ∀ e ∈ encoders, usableEncoder h e.2 = true)
    (hfeat : (feat, encInfo) ∈ encoders)
    (hmap : getProp h encInfo "mapping" = .obj mapping)
    (hraw : lookup feat payload = some (.str raw))
    (hown : lookup (strValueOf raw) mapping = none)
    (hinh : strValueOf raw ∉ objectPrototypeKeys)
    (hci : ∀ k ∈ mapping.map Prod.fst, h.toLowerCase k ≠ h.toLowerCase (strValueOf raw)) :
    (∃ encoded ws, encodeCategoricalInputs h cfg payload = .ok (encoded, ws) ∧
      lookup feat encoded = some (unknownIdx h (.obj mapping))) ∧
    (∀ u, lookup "__UNKNOWN__" mapping = some u → nullish u = false →
      unknownIdx h (.obj mapping) = u) ∧
    (lookup "__UNKNOWN__" mapping = none → ∀ q qs, mapping.map Prod.snd = numbers (q :: qs) →
      unknownIdx h (.obj mapping) = .num (.fin (qs.foldl max q + 1))) :=
  ⟨unknown_value_fallback h cfg encoders payload feat encInfo mapping raw hcfg hkeys husable
      hfeat (by rw [hmap, orElse_obj]) hraw hown hinh hci,
    fun u hu hn => unknownIdx_marked h mapping u hu hn,
    fun hu q qs hcodes => unknownIdx_max h mapping q qs hu hcodes⟩

/-- C14 (witness).  With `__UNKNOWN__: 99` inside the mapping, the value "zzz" is
encoded to the code of an unknown value, which is 99. -/
theorem C14_unknown_code_is_read_from_mapping_witness :
    (∃ encoded ws, encodeCategoricalInputs sampleHost unknownInsideConfig
        [("color", .str "zzz")] = .ok (encoded, ws) ∧
      lookup "color" encoded = some (unknownIdx sampleHost (.obj markedMapping))) ∧
    unknownIdx sampleHost (.obj markedMapping) = .num (.fin 99) :=
  have key := C14_unknown_code_is_read_from_mapping sampleHost unknownInsideConfig
    [("color", .obj [("mapping", .obj markedMapping)])]
    [("color", .str "zzz")] "color" (.obj [("mapping", .obj markedMapping)])
    markedMapping "zzz"
    rfl (by decide) (by decide) (List.mem_cons_self _ _) rfl rfl rfl (by decide) (by decide)
  ⟨key.1, key.2.1 (.num (.fin 99)) rfl rfl⟩

/-- C18 (evaluation at the failing input).  The mapping `{"low": -3, "high": 10}` has
numbers for codes and no `__UNKNOWN__` key, and the value "constructor" is none of its
keys, exactly or without regard to case: it is not recognized, and the code of an
unknown value would be 11, above both codes.  The `in` test of line 70 finds the name
every object inherits, and the feature is set to the inherited function, which is no
number and so not above the codes. -/
theorem C18_inherited_name_gets_no_code (h : Host) :
    lookup "constructor" gapMapping = none ∧
    lookup "__UNKNOWN__" gapMapping = none ∧
    findCaseInsensitive sampleHost (sampleHost.toLowerCase "constructor") (.obj gapMapping) =
      none ∧
    unknownIdx h (.obj gapMapping) = .num (.fin 11) ∧
    encodeCategoricalInputs h gapConfig [("level", .str "constructor")] =
      .ok ([("level", .inherited "constructor")], []) ∧
    isNumber (.inherited "constructor") = false := by
  refine ⟨rfl, rfl, rfl, ?_, rfl, rfl⟩
  simp [unknownIdx, getProp, lookup, hiddenOwn, ownEntries, gapMapping, inheritedValue,
    objectPrototypeKeys, nullish, mathMax, toNumber, JNum.max, JNum.add]
  norm_num

/-! ## The encoder changes only configured string values -/

theorem forall₂_framed_refl (keys : List String) (ps : JObj) :
    List.Forall₂ (framed keys) ps ps := by
  induction ps with
  | nil => exact List.Forall₂.nil
  | cons p ps ih => exact List.Forall₂.cons ⟨rfl, fun _ => rfl⟩ ih

/-- Replacing the string under `k` changes that entry only. -/
theorem forall₂_replaceOwn (k : String) (x : JVal) (raw : String) (ps : JObj)
    (hk : lookup k ps = some (.str raw)) :
    List.Forall₂ (framed [k]) ps (replaceOwn k x ps) := by
  induction ps with
  | nil => exact List.Forall₂.nil
  | cons p ps ih =>
    obtain ⟨k', v⟩ := p
    by_cases hkk : k' = k
    · subst hkk
      simp only [lookup, if_true, Option.some.injEq] at hk
      subst hk
      simp only [replaceOwn, if_true]
      refine List.Forall₂.cons ⟨rfl, ?_⟩ (forall₂_framed_refl _ ps)
      rintro (hc | hc)
      · exact absurd (List.mem_singleton.2 rfl) hc
      · exact absurd rfl (hc raw)
    · simp only [lookup, hkk, if_false] at hk
      simp only [replaceOwn, hkk, if_false]
      exact List.Forall₂.cons ⟨rfl, fun _ => rfl⟩ (ih hk)

/-- A turn of the loop changes at most the string under its own key. -/
theorem encodeEntry_framed (h : Host) (state state' : JObj × List Event)
    (entry : String × JVal) (hstep : encodeEntry h state entry = .ok state') :
    List.Forall₂ (framed [entry.1]) state.1 state'.1 := by
  unfold encodeEntry at hstep
  split at hstep
  · next raw _ hg =>
    have hown := lookup_of_getProp_str h _ _ _ hg
    cases hv : encodeValue h entry.1 entry.2 raw with
    | error t => rw [hv] at hstep; cases hstep
    | ok r =>
      obtain ⟨code, ws⟩ := r
      rw [hv] at hstep
      cases hstep
      rw [assignRecord_of_own _ _ _ (by simp [hown])]
      exact forall₂_replaceOwn _ _ raw _ hown
  · cases hstep
  · cases hstep; exact forall₂_framed_refl _ _

theorem forall₂_framed_trans (keys : List String) (k : String) (hk : k ∈ keys)
    (ps qs rs : JObj) (h1 : List.Forall₂ (framed keys) ps qs)
    (h2 : List.Forall₂ (framed [k]) qs rs) : List.Forall₂ (framed keys) ps rs := by
  induction h1 generalizing rs with
  | nil => cases h2; exact List.Forall₂.nil
  | cons hpq _ ih =>
    cases h2 with
    | cons hqr htail =>
      refine List.Forall₂.cons ⟨hqr.1.trans hpq.1, ?_⟩ (ih _ htail)
      intro hcond
      have hq := hpq.2 hcond
      have hr : _ = _ := hqr.2 (by
        rcases hcond with hc | hc
        · left
          intro hmem
          rw [List.mem_singleton] at hmem
          exact hc (by rw [← hpq.1, hmem]; exact hk)
        · right
          intro raw
          rw [hq]
          exact hc raw)
      exact hr.trans hq

theorem encodeLoop_framed (h : Host) (keys : List String) (payload : JObj)
    (entries : List (String × JVal)) (hsub : ∀ e ∈ entries, e.1 ∈ keys)
    (state state' : JObj × List Event)
    (hstart : List.Forall₂ (framed keys) payload state.1)
    (hloop : encodeLoop h entries state = .ok state') :
    List.Forall₂ (framed keys) payload state'.1 := by
  induction entries generalizing state with
  | nil => simp only [encodeLoop] at hloop; cases hloop; exact hstart
  | cons entry rest ih =>
    unfold encodeLoop at hloop
    cases hstep : encodeEntry h state entry with
    | error t => rw [hstep] at hloop; cases hloop
    | ok st =>
      rw [hstep] at hloop
      exact ih (fun e he => hsub e (List.mem_cons_of_mem _ he)) st
        (forall₂_framed_trans keys entry.1 (hsub entry (List.mem_cons_self _ _)) _ _ _ hstart
          (encodeEntry_framed h state st entry hstep)) hloop

theorem forall₂_framed_keys (keys : List String) (ps qs : JObj)
    (hf : List.Forall₂ (framed keys) ps qs) : qs.map Prod.fst = ps.map Prod.fst := by
  induction hf with
  | nil => rfl
  | cons hpq _ ih => simp [hpq.1, ih]

/-- C13.  Whenever `encodeCategoricalInputs` returns, the encoded record has the keys of
the record, in the same places, and every entry whose key is not a key of
`categorical_encoders`, or whose value is not a string, has the value it had.  It does
return when every encoder can be used.  And when `categorical_encoders` is absent, or
otherwise falsy, or has no entry, the encoded record is the record. -/
theorem C13_encoding_changes_only_configured_strings (h : Host) (cfg : JVal)
    (payload : JObj) :
    (∀ encoded ws, encodeCategoricalInputs h cfg payload = .ok (encoded, ws) →
      encoded.map Prod.fst = payload.map Prod.fst ∧
      List.Forall₂
        (framed ((ownEntries (optMember h cfg "categorical_encoders")).map Prod.fst))
        payload encoded) ∧
    ((∀ e ∈ ownEntries (optMember h cfg "categorical_encoders"), usableEncoder h e.2 = true) →
      ∃ encoded ws, encodeCategoricalInputs h cfg payload = .ok (encoded, ws)) ∧
    (truthy (optMember h cfg "categorical_encoders") = false ∨
        ownEntries (optMember h cfg "categorical_encoders") = [] →
      encodeCategoricalInputs h cfg payload = .ok (payload, [])) := by
  refine ⟨?_, ?_, ?_⟩
  · intro encoded ws henc
    have hf : List.Forall₂
        (framed ((ownEntries (optMember h cfg "categorical_encoders")).map Prod.fst))
        payload encoded := by
      unfold encodeCategoricalInputs at henc
      by_cases ht : truthy (optMember h cfg "categorical_encoders")
      · simp only [ht, Bool.not_true, Bool.false_eq_true, if_false] at henc
        exact encodeLoop_framed h _ payload _ (fun e he => List.mem_map_of_mem _ he)
          (payload, []) (encoded, ws) (forall₂_framed_refl _ _) henc
      · simp only [ht, Bool.not_false, if_true] at henc
        cases henc
        exact forall₂_framed_refl _ _
    exact ⟨forall₂_framed_keys _ _ _ hf, hf⟩
  · intro hu
    unfold encodeCategoricalInputs
    by_cases ht : truthy (optMember h cfg "categorical_encoders")
    · simp only [ht, Bool.not_true, Bool.false_eq_true, if_false]
      obtain ⟨st, hst⟩ := encodeLoop_usable h _ hu (payload, [])
      exact ⟨st.1, st.2, hst⟩
    · simp only [ht, Bool.not_false, if_true]
      exact ⟨payload, [], rfl⟩
  · intro hempty
    unfold encodeCategoricalInputs
    rcases hempty with ht | he
    · simp [ht]
    · by_cases ht : truthy (optMember h cfg "categorical_encoders")
      · simp [ht, he, encodeLoop]
      · simp [ht]

/-- C13 (witness).  Under the mapping `{"RED": 0, "red": 1}` for "job", the record
`{age: 40, job: " red "}` keeps its keys and its age. -/
theorem C13_encoding_changes_only_configured_strings_witness :
    [("age", JVal.num (.fin 40)), ("job", JVal.num (.fin 1))].map Prod.fst =
      [("age", JVal.num (.fin 40)), ("job", JVal.str " red ")].map Prod.fst ∧
    List.Forall₂
      (framed ((ownEntries (optMember sampleHost (jobConfig caseMapping)
        "categorical_encoders")).map Prod.fst))
      [("age", .num (.fin 40)), ("job", .str " red ")]
      [("age", .num (.fin 40)), ("job", .num (.fin 1))] :=
  (C13_encoding_changes_only_configured_strings sampleHost (jobConfig caseMapping)
    [("age", .num (.fin 40)), ("job", .str " red ")]).1
    [("age", .num (.fin 40)), ("job", .num (.fin 1))] [] rfl

/-! ## Encoding an encoded record -/

theorem usable_of_numeric (h : Host) (encInfo : JVal) (hn : numericEncoder h encInfo = true) :
    usableEncoder h encInfo = true := by
  unfold numericEncoder at hn
  unfold usableEncoder
  simp only [Bool.and_eq_true] at hn ⊢
  refine ⟨hn.1, ?_⟩
  have h2 := hn.2
  split at h2
  · next m heq => rw [heq]
  · cases h2

theorem lookup_mem (k : String) (ps : JObj) (v : JVal) (hl : lookup k ps = some v) :
    ∃ entry ∈ ps, entry.2 = v := by
  induction ps with
  | nil => cases hl
  | cons p ps ih =>
    obtain ⟨k', w⟩ := p
    by_cases hk : k' = k
    · simp only [lookup, hk, if_true, Option.some.injEq] at hl
      exact ⟨(k', w), List.mem_cons_self _ _, hl⟩
    · simp only [lookup, hk, if_false] at hl
      obtain ⟨entry, hmem, hv⟩ := ih hl
      exact ⟨entry, List.mem_cons_of_mem _ hmem, hv⟩

/-- Whatever is read from a mapping whose codes are numbers is not a string. -/
theorem getProp_numeric (h : Host) (mapping : JObj) (k raw : String)
    (hall : mapping.all (fun entry => isNumber entry.2) = true) :
    getProp h (.obj mapping) k ≠ .str raw := by
  rw [getProp_obj]
  cases hl : lookup k mapping with
  | none => exact inheritedValue_ne_str k raw
  | some v =>
    obtain ⟨entry, hmem, hv⟩ := lookup_mem k mapping v hl
    have hnum := List.all_eq_true.1 hall entry hmem
    rw [hv] at hnum
    intro hc
    simp only [Option.getD_some] at hc
    rw [hc] at hnum
    cases hnum

theorem unknownIdx_numeric (h : Host) (mapping : JObj) (raw : String)
    (hall : mapping.all (fun entry => isNumber entry.2) = true) :
    unknownIdx h (.obj mapping) ≠ .str raw := by
  unfold unknownIdx
  dsimp only
  split
  · exact getProp_numeric h mapping _ raw hall
  · split <;> exact fun hc => JVal.noConfusion hc

/-- With numbers for codes, the code a value is encoded to is not a string. -/
theorem encodeValue_numeric (h : Host) (feat : String) (encInfo : JVal) (raw : String)
    (code : JVal) (ws : List Event) (hn : numericEncoder h encInfo = true)
    (hval : encodeValue h feat encInfo raw = .ok (code, ws)) (s : String) :
    code ≠ .str s := by
  have hget := getMember_of_usable h encInfo (usable_of_numeric h encInfo hn)
  unfold numericEncoder at hn
  simp only [Bool.and_eq_true] at hn
  have h2 := hn.2
  unfold encodeValue at hval
  rw [hget] at hval
  dsimp only at hval
  split at h2
  · next mapping heq =>
    rw [heq] at hval
    split at hval
    · cases hval
    · cases hval; exact getProp_numeric h mapping _ s h2
    · split at hval
      · split at hval
        · cases hval; exact getProp_numeric h mapping _ s h2
        · cases hval; exact unknownIdx_numeric h mapping s h2
      · cases hval; exact unknownIdx_numeric h mapping s h2
  · cases h2

/-- After a turn of the loop with numbers for codes, the value under the key of the
turn is not a string, and no value that was not a string has become one. -/
theorem encodeEntry_numeric (h : Host) (state state' : JObj × List Event)
    (entry : String × JVal) (hn : numericEncoder h entry.2 = true)
    (hstep : encodeEntry h state entry = .ok state') :
    (∀ raw, lookup entry.1 state'.1 ≠ some (.str raw)) ∧
    ∀ k, (∀ raw, lookup k state.1 ≠ some (.str raw)) →
      ∀ raw, lookup k state'.1 ≠ some (.str raw) := by
  unfold encodeEntry at hstep
  split at hstep
  · next raw _ hg =>
    have hown := lookup_of_getProp_str h _ _ _ hg
    cases hv : encodeValue h entry.1 entry.2 raw with
    | error t => rw [hv] at hstep; cases hstep
    | ok r =>
      obtain ⟨code, ws⟩ := r
      rw [hv] at hstep
      cases hstep
      have hcode := encodeValue_numeric h entry.1 entry.2 raw code ws hn hv
      have hself : lookup entry.1 (assignRecord state.1 entry.1 code) = some code := by
        rw [assignRecord_of_own _ _ _ (by simp [hown])]
        exact lookup_replaceOwn_self _ _ _ (by simp [hown])
      refine ⟨fun s hc => ?_, fun k hk s hc => ?_⟩
      · rw [hself] at hc
        exact hcode s (Option.some.inj hc)
      · by_cases hke : k = entry.1
        · subst hke
          rw [hself] at hc
          exact hcode s (Option.some.inj hc)
        · rw [assignRecord_of_own _ _ _ (by simp [hown]),
            lookup_replaceOwn_other _ _ _ _ hke] at hc
          exact hk s hc
  · cases hstep
  · next hno =>
    cases hstep
    refine ⟨fun s hc => ?_, fun k hk => hk⟩
    have hp : hasProperty h entry.1 (.obj state.1) = .ok true := by
      simp [hasProperty, hasOwn, hc]
    have hg : getProp h (.obj state.1) entry.1 = .str s := by
      rw [getProp_obj, hc]; rfl
    exact hno s hp hg

theorem encodeLoop_numeric (h : Host) (entries : List (String × JVal))
    (hn : ∀ e ∈ entries, numericEncoder h e.2 = true) (state state' : JObj × List Event)
    (hloop : encodeLoop h entries state = .ok state') :
    (∀ e ∈ entries, ∀ raw, lookup e.1 state'.1 ≠ some (.str raw)) ∧
    ∀ k, (∀ raw, lookup k state.1 ≠ some (.str raw)) →
      ∀ raw, lookup k state'.1 ≠ some (.str raw) := by
  induction entries generalizing state with
  | nil =>
    simp only [encodeLoop] at hloop
    cases hloop
    exact ⟨fun e he => (by cases he), fun k hk => hk⟩
  | cons entry rest ih =>
    unfold encodeLoop at hloop
    cases hstep : encodeEntry h state entry with
    | error t => rw [hstep] at hloop; cases hloop
    | ok st =>
      rw [hstep] at hloop
      obtain ⟨hself, hkeep⟩ := encodeEntry_numeric h state st entry
        (hn entry (List.mem_cons_self _ _)) hstep
      obtain ⟨hrest, hkeep'⟩ := ih (fun e he => hn e (List.mem_cons_of_mem _ he)) st hloop
      refine ⟨fun e he => ?_, fun k hk => hkeep' k (hkeep k hk)⟩
      rcases List.mem_cons.1 he with rfl | hmem
      · exact hkeep' _ hself
      · exact hrest e hmem

/-- A loop over encoders whose features hold no string leaves the record as it is. -/
theorem encodeLoop_settled (h : Host) (entries : List (String × JVal))
    (state : JObj × List Event)
    (hno : ∀ e ∈ entries, ∀ raw, lookup e.1 state.1 ≠ some (.str raw)) :
    encodeLoop h entries state = .ok state := by
  induction entries with
  | nil => rfl
  | cons entry rest ih =>
    have hstep : encodeEntry h state entry = .ok state := by
      unfold encodeEntry
      split
      · next raw _ hg =>
        exact absurd (lookup_of_getProp_str h _ _ _ hg) (hno entry (List.mem_cons_self _ _) raw)
      · next e _ hp => simp [hasProperty] at hp
      · rfl
    simp only [encodeLoop, hstep]
    exact ih fun e he => hno e (List.mem_cons_of_mem _ he)

/-- C19.  When every encoder of `categorical_encoders` can be used and has numbers for
the codes of its mapping, `encodeCategoricalInputs` returns an encoded record, and
encoding that record again returns it unchanged, with no warning. -/
theorem C19_encoding_is_idempotent (h : Host) (cfg : JVal) (payload : JObj)
    (hnum : ∀ e ∈ ownEntries (optMember h cfg "categorical_encoders"),
      numericEncoder h e.2 = true) :
    ∃ encoded ws, encodeCategoricalInputs h cfg payload = .ok (encoded, ws) ∧
      encodeCategoricalInputs h cfg encoded = .ok (encoded, []) := by
  unfold encodeCategoricalInputs
  by_cases ht : truthy (optMember h cfg "categorical_encoders")
  · simp only [ht, Bool.not_true, Bool.false_eq_true, if_false]
    obtain ⟨st, hst⟩ := encodeLoop_usable h _
      (fun e he => usable_of_numeric h e.2 (hnum e he)) (payload, [])
    obtain ⟨hsettled, -⟩ := encodeLoop_numeric h _ hnum (payload, []) st hst
    exact ⟨st.1, st.2, hst, encodeLoop_settled h _ (st.1, []) hsettled⟩
  · refine ⟨payload, [], ?_, ?_⟩ <;> simp [ht]

/-- C19 (witness).  Under the mapping `{"RED": 0, "red": 1}` for "job", some encoded
record comes out of the record `{age: 40, job: " red "}` and stays as it is when
encoded again. -/
theorem C19_encoding_is_idempotent_witness :
    ∃ encoded ws, encodeCategoricalInputs sampleHost (jobConfig caseMapping)
        [("age", .num (.fin 40)), ("job", .str " red ")] = .ok (encoded, ws) ∧
      encodeCategoricalInputs sampleHost (jobConfig caseMapping) encoded = .ok (encoded, []) :=
  C19_encoding_is_idempotent sampleHost (jobConfig caseMapping)
    [("age", .num (.fin 40)), ("job", .str " red ")] (by decide)

/-! ## Numeric prefixes -/

theorem unsignedLiteral_isSome (cs : List Char) :
    (unsignedLiteral cs).isSome = startsUnsigned cs := by
  unfold unsignedLiteral startsUnsigned
  by_cases hinf : "Infinity".data.isPrefixOf cs = true
  · simp [hinf]
  · simp only [hinf, Bool.false_eq_true, if_false, Bool.false_or]
    rw [List.span_eq_take_drop]
    cases cs with
    | nil => simp
    | cons c rest =>
      by_cases hd : c.isDigit = true
      · simp only [List.takeWhile_cons_of_pos hd, List.dropWhile_cons_of_pos hd, hd, Bool.true_or]
        split
        · simp
        · simp
      · simp only [List.takeWhile_cons_of_neg hd, List.dropWhile_cons_of_neg hd, hd,
          Bool.false_or]
        by_cases hp : c = '.'
        · subst hp
          simp only [List.span_eq_take_drop]
          cases rest with
          | nil => simp
          | cons d rest' =>
            by_cases hdd : d.isDigit = true
            · simp [List.takeWhile_cons_of_pos hdd, hdd]
            · simp [List.takeWhile_cons_of_neg hdd, hdd]
        · have hpb : (c == '.') = false := by simpa using hp
          simp only [hpb, Bool.false_and]
          split
          · next r2 heq => simp at heq; exact absurd heq.1 hp
          · simp

theorem unsignedLiteral_ne_nan (cs : List Char) (x : JNum) (rest : List Char)
    (hu : unsignedLiteral cs = some (x, rest)) : x ≠ .nan ∧ x.neg ≠ .nan := by
  unfold unsignedLiteral at hu
  split at hu
  · cases hu; exact ⟨fun hc => JNum.noConfusion hc, fun hc => JNum.noConfusion hc⟩
  · rw [List.span_eq_take_drop] at hu
    dsimp only at hu
    split at hu
    · rw [List.span_eq_take_drop] at hu
      dsimp only at hu
      split at hu
      · cases hu
      · cases hu; exact ⟨fun hc => JNum.noConfusion hc, fun hc => JNum.noConfusion hc⟩
    · split at hu
      · cases hu
      · cases hu; exact ⟨fun hc => JNum.noConfusion hc, fun hc => JNum.noConfusion hc⟩

theorem signedLiteral_isSome (cs : List Char) :
    (signedLiteral cs).isSome = startsNumeric cs := by
  unfold signedLiteral startsNumeric
  split
  · exact unsignedLiteral_isSome _
  · rw [Option.isSome_map']
    exact unsignedLiteral_isSome _
  · exact unsignedLiteral_isSome _

theorem signedLiteral_ne_nan (cs : List Char) (x : JNum) (rest : List Char)
    (hs : signedLiteral cs = some (x, rest)) : x ≠ .nan := by
  unfold signedLiteral at hs
  split at hs
  · exact (unsignedLiteral_ne_nan _ x rest hs).1
  · cases hu : unsignedLiteral _ with
    | none => rw [hu] at hs; cases hs
    | some r =>
      obtain ⟨y, after⟩ := r
      rw [hu] at hs
      simp only [Option.map_some', Option.some.injEq, Prod.mk.injEq] at hs
      rw [← hs.1]
      exact (unsignedLiteral_ne_nan _ y after hu).2
  · exact (unsignedLiteral_ne_nan _ x rest hs).1

/-- A string parses to a number exactly when it has a numeric prefix. -/
theorem isNaN_parseFloatString (s : String) :
    isNaN (parseFloatString s) = !hasNumericPrefix s := by
  unfold parseFloatString hasNumericPrefix
  rw [← signedLiteral_isSome]
  cases hs : signedLiteral (trimStartChars s.data) with
  | none => rfl
  | some r =>
    obtain ⟨x, rest⟩ := r
    simp only [Option.isSome_some, Bool.not_true]
    exact isNaN_eq_false x (signedLiteral_ne_nan _ x rest hs)

theorem digit_bounds (d : Char) (hd : d.isDigit = true) : 48 ≤ d.toNat ∧ d.toNat ≤ 57 := by
  simp only [Char.isDigit, Bool.and_eq_true, decide_eq_true_eq] at hd
  obtain ⟨h1, h2⟩ := hd
  have h1' : (48 : UInt32).toNat ≤ d.val.toNat := h1
  have h2' : d.val.toNat ≤ (57 : UInt32).toNat := h2
  exact ⟨h1', h2'⟩

theorem digit_not_whitespace (d : Char) (hd : d.isDigit = true) :
    isJsWhitespace d = false := by
  obtain ⟨h1, h2⟩ := digit_bounds d hd
  simp only [isJsWhitespace, Bool.or_eq_false_iff, Bool.and_eq_false_iff, beq_eq_false_iff_ne,
    decide_eq_false_iff_not]
  refine ⟨⟨⟨⟨⟨⟨⟨⟨⟨⟨⟨⟨⟨⟨?_, ?_⟩, ?_⟩, ?_⟩, ?_⟩, ?_⟩, ?_⟩, ?_⟩, ?_⟩, ?_⟩, ?_⟩, ?_⟩, ?_⟩, ?_⟩, ?_⟩ <;>
    omega

theorem takeWhile_digits (digits tail : List Char) (hd : ∀ c ∈ digits, c.isDigit = true)
    (ht : ∀ c ∈ tail.head?, c.isDigit = false) :
    (digits ++ tail).takeWhile Char.isDigit = digits ∧
    (digits ++ tail).dropWhile Char.isDigit = tail := by
  induction digits with
  | nil =>
    cases tail with
    | nil => exact ⟨rfl, rfl⟩
    | cons c cs =>
      have hc : ¬ c.isDigit = true := by simp [ht c (by simp)]
      simp [List.takeWhile_cons_of_neg hc, List.dropWhile_cons_of_neg hc]
  | cons d ds ih =>
    have hdd := hd d (List.mem_cons_self _ _)
    have hrest := ih fun c hc => hd c (List.mem_cons_of_mem _ hc)
    simp [List.takeWhile_cons_of_pos hdd, List.dropWhile_cons_of_pos hdd, hrest]

theorem applyExponent_none (m : ℚ) (tail : List Char)
    (ht : ∀ c ∈ tail.head?, c ≠ 'e' ∧ c ≠ 'E') : applyExponent m tail = (m, tail) := by
  cases tail with
  | nil => rfl
  | cons c cs =>
    obtain ⟨h1, h2⟩ := ht c (by simp)
    simp [applyExponent, h1, h2]

/-- The digits of an integer literal are read whole, and what follows them is left
out, when it begins with no digit, no point and no exponent mark. -/
theorem parseFloatString_digits (digits tail : List Char) (hne : digits ≠ [])
    (hd : ∀ c ∈ digits, c.isDigit = true)
    (ht : ∀ c ∈ tail.head?, c.isDigit = false ∧ c ≠ '.' ∧ c ≠ 'e' ∧ c ≠ 'E') :
    parseFloatString (String.mk (digits ++ tail)) = .fin (digitsValue 10 digits) := by
  obtain ⟨d, ds, rfl⟩ := List.exists_cons_of_ne_nil hne
  have hdd : d.isDigit = true := hd d (List.mem_cons_self _ _)
  have hws : ¬ isJsWhitespace d = true := by simp [digit_not_whitespace d hdd]
  have hplus : d ≠ '+' := by rintro rfl; revert hdd; decide
  have hminus : d ≠ '-' := by rintro rfl; revert hdd; decide
  have hI : ('I' == d) = false := by
    rw [beq_eq_false_iff_ne]; rintro rfl; revert hdd; decide
  obtain ⟨htake, hdrop⟩ := takeWhile_digits (d :: ds) tail hd (fun c hc => (ht c hc).1)
  have hunsigned : unsignedLiteral (d :: ds ++ tail) =
      some (.fin (digitsValue 10 (d :: ds)), tail) := by
    have hinf : "Infinity".data.isPrefixOf (d :: ds ++ tail) = false := by
      show ['I', 'n', 'f', 'i', 'n', 'i', 't', 'y'].isPrefixOf (d :: (ds ++ tail)) = false
      simp [List.isPrefixOf, hI]
    unfold unsignedLiteral
    rw [hinf, List.span_eq_take_drop, htake, hdrop]
    simp only [Bool.false_eq_true, if_false]
    split
    · exact absurd rfl (ht '.' (by simp)).2.1
    · simp [applyExponent_none _ tail (fun c hc => (ht c hc).2.2)]
  have hsigned : signedLiteral (d :: ds ++ tail) =
      some (.fin (digitsValue 10 (d :: ds)), tail) := by
    unfold signedLiteral
    split
    · next rest heq => simp at heq; exact absurd heq.1 hplus
    · next rest heq => simp at heq; exact absurd heq.1 hminus
    · exact hunsigned
  simp only [parseFloatString, trimStartChars, List.cons_append,
    List.dropWhile_cons_of_neg hws]
  rw [← List.cons_append, hsigned]

theorem orderedFeature_other (h : Host) (names : List JVal) (encoded : JObj)
    (name : String) (v : JVal) (hv : lookup name encoded = some v)
    (hnan : parseFloat v = .nan) :
    orderedFeature h names encoded (.str name) =
      .error (.error ("Non-numeric after encoding: " ++ name ++ "='" ++ toStr h v ++ "'")) := by
  have hp : hasProperty h name (.obj encoded) = .ok true := by
    simp [hasProperty, hasOwn, hv]
  simp only [orderedFeature, orderedFeatureWith, toStr, hp, getProp_obj, hv,
    Option.getD_some, hnan, isNaN]
  rfl

/-- C20.  A string value with a numeric prefix (after its leading whitespace, an
optional sign and then "Infinity", a digit, or a point and a digit) is accepted by
`prepareInputTensor`, with or without a feature order, and contributes the number
`parseFloat` reads from it; a string value without one is rejected as not numeric.
What follows the literal does not count: digits followed by anything but a digit, a
point and an exponent mark are read as their integer, so "3abc" contributes 3. -/
theorem C20_numeric_prefix_is_accepted (h : Host) (s : String) :
    (hasNumericPrefix s = true →
      parseFloat (.str s) ≠ .nan ∧
      plainFeature h (.str s) = .ok (parseFloat (.str s)) ∧
      ∀ (names : List JVal) (encoded : JObj) (name : String),
        lookup name encoded = some (.str s) →
        orderedFeature h names encoded (.str name) = .ok (parseFloat (.str s))) ∧
    (hasNumericPrefix s = false →
      plainFeature h (.str s) =
        .error (.error ("Non-numeric input: " ++ s ++ " (no preprocessor config loaded)")) ∧
      ∀ (names : List JVal) (encoded : JObj) (name : String),
        lookup name encoded = some (.str s) →
        orderedFeature h names encoded (.str name) =
          .error (.error ("Non-numeric after encoding: " ++ name ++ "='" ++ s ++ "'"))) ∧
    (∀ digits tail : List Char, digits ≠ [] → (∀ c ∈ digits, c.isDigit = true) →
      (∀ c ∈ tail.head?, c.isDigit = false ∧ c ≠ '.' ∧ c ≠ 'e' ∧ c ≠ 'E') →
      parseFloat (.str (String.mk (digits ++ tail))) = .fin (digitsValue 10 digits)) := by
  have hnan := isNaN_parseFloatString s
  refine ⟨fun hpre => ?_, fun hpre => ?_, fun digits tail hne hd ht =>
    parseFloatString_digits digits tail hne hd ht⟩
  · have hne : parseFloat (.str s) ≠ .nan := by
      intro hc
      have hc' : parseFloatString s = .nan := hc
      rw [hc', hpre] at hnan
      cases hnan
    exact ⟨hne, plainFeature_numeric h _ hne,
      fun names encoded name hl => orderedFeature_present h names encoded name _ hl hne⟩
  · have heq : parseFloat (.str s) = .nan := by
      rw [hpre] at hnan
      show parseFloatString s = .nan
      cases hx : parseFloatString s with
      | nan => rfl
      | fin q => rw [hx] at hnan; cases hnan
      | inf b => rw [hx] at hnan; cases hnan
    exact ⟨plainFeature_other h _ heq,
      fun names encoded name hl => orderedFeature_other h names encoded name _ hl heq⟩

/-- C20 (witness).  The value "3abc" has a numeric prefix and contributes 3. -/
theorem C20_numeric_prefix_is_accepted_witness :
    hasNumericPrefix "3abc" = true ∧ plainFeature sampleHost (.str "3abc") = .ok (.fin 3) :=
  ⟨by decide, ((C20_numeric_prefix_is_accepted sampleHost "3abc").1 (by decide)).2.1⟩

/-! ## Normalizing a normalized document -/

/-- C12 (evaluation at the failing input).  The document `protoDoc` is one that
`JSON.parse` returns.  Its normalization returns `protoNormal`: the assignment of line
26 under the trimmed key `__proto__` makes `null` the prototype of the rebuilt object,
after which the second `__proto__` becomes an own property.  The normalization of
`protoNormal` does not return `protoNormal`: it returns `protoAgain`, in which the
property `__proto__` is lost.  Likewise `inheritDoc` is normalized to `inheritNormal`,
which reads a scaler through its prototype, and `inheritNormal` to `inheritAgain`, which
has none. -/
theorem C12_normalized_document_changes_again (h : Host) :
    isJson protoDoc = true ∧
    normalizeConfig h protoDoc = .ok protoNormal ∧
    normalizeConfig h protoNormal = .ok protoAgain ∧
    lookup "__proto__" (ownEntries protoNormal) = some (.num (.fin 5)) ∧
    lookup "__proto__" (ownEntries protoAgain) = none ∧
    isJson inheritDoc = true ∧
    normalizeConfig h inheritDoc = .ok inheritNormal ∧
    normalizeConfig h inheritNormal = .ok inheritAgain ∧
    getProp h (getProp h inheritNormal "scaler") "type" = .str "standard" ∧
    getProp h inheritAgain "scaler" = .undefined :=
  ⟨rfl, rfl, rfl, rfl, rfl, rfl, rfl, rfl, rfl, rfl⟩

end FavoriotML
